import Mathlib

/-!
# Verification of the VIMS ML damage-analyzer service

A shallow embedding of `src/ml-analyzer/app.py`, the FastAPI microservice
that fetches a vehicle photo, asks a vision-language model for a damage
estimate, and optionally publishes the resulting report to a pinning
service.

Python floats are modelled as rationals (`ℚ`); the IEEE special values
`inf`/`nan` are outside this model.  Python runtime values that can appear
in a decoded JSON document are modelled by the inductive type `Py`
(Python `int` and `float` are merged into `Py.num`, which is faithful for
every operation the service performs on them).  External effects — the
HTTP GET to the gateway, the Gemini call, `random.uniform`, `json.loads`,
and the Pinata POST — are modelled as explicit oracle inputs, so each
route becomes a pure function of its request plus those oracles.
-/

namespace VimsML

/-! ### Kernel-computable rational arithmetic

Batteries marks `Rat.add/mul/sub/inv` `@[irreducible]`, so terms built from
them cannot be evaluated by `decide`/`rfl`.  The wrappers below are the
same operations written through `mkRat` (proved equal to the Mathlib
operations in the lemmas section); the service's definitions use them so
that every claim can be checked on concrete inputs by kernel reduction. -/

/-- Addition on `ℚ` (equals `a + b`). -/
def qadd (a b : ℚ) : ℚ := mkRat (a.num * b.den + b.num * a.den) (a.den * b.den)

/-- Multiplication on `ℚ` (equals `a * b`). -/
def qmul (a b : ℚ) : ℚ := mkRat (a.num * b.num) (a.den * b.den)

/-- Subtraction on `ℚ` (equals `a - b`). -/
def qsub (a b : ℚ) : ℚ := mkRat (a.num * b.den - b.num * a.den) (a.den * b.den)

/-- Negation on `ℚ` (equals `-a`). -/
def qneg (a : ℚ) : ℚ := mkRat (-a.num) a.den

/-- A natural number as a rational (equals the coercion). -/
def qnat (n : ℕ) : ℚ := mkRat n 1

/-- An integer as a rational (equals the coercion). -/
def qint (m : ℤ) : ℚ := mkRat m 1

/-- Division of a rational by a natural (equals `a / d`). -/
def qdivNat (a : ℚ) (d : ℕ) : ℚ := mkRat a.num (a.den * d)

/-- `10 ^ k` as a rational (equals the power). -/
def qtenPow (k : ℕ) : ℚ := mkRat ((10 ^ k : ℕ) : ℤ) 1

/-- A Python value as produced by `json.loads` / manipulated by the service.
`int` and `float` are merged into `num`; `Py.none` is Python `None`
(= JSON `null`). -/
inductive Py where
  | none : Py
  | bool : Bool → Py
  | num : ℚ → Py
  | str : String → Py
  | list : List Py → Py
  | dict : List (String × Py) → Py
deriving Repr

/-- Python truthiness (`bool(v)`), for the values `Py` can hold. -/
def pyTruthy : Py → Bool
  | .none => false
  | .bool b => b
  | .num q => q ≠ 0
  | .str s => s ≠ ""
  | .list xs => ¬ xs.isEmpty
  | .dict kvs => ¬ kvs.isEmpty

/-- Python whitespace stripped by `str.strip()` and `float(str)`
(ASCII subset; exotic Unicode spaces are outside the model). -/
def isPyWs (c : Char) : Bool :=
  c = ' ' || c = '\t' || c = '\n' || c = '\r' || c = '\x0b' || c = '\x0c'

/-- `str.strip()`. -/
def pyStrip (s : String) : String :=
  ⟨((s.data.dropWhile isPyWs).reverse.dropWhile isPyWs).reverse⟩

/-- Python substring containment `needle in hay` on the underlying chars. -/
def charsContain (needle : List Char) : List Char → Bool
  | [] => needle.isEmpty
  | c :: rest => needle.isPrefixOf (c :: rest) || charsContain needle rest

/-- Python `needle in hay` for strings. -/
def strContains (hay needle : String) : Bool :=
  charsContain needle.data hay.data

/-- `str.lower()` (ASCII subset, as with the other string helpers). -/
def pyLower (s : String) : String :=
  ⟨s.data.map Char.toLower⟩

/-- `str.split(sep)` for a non-empty separator: cut at every
(non-overlapping, leftmost) occurrence; fuelled, one step per character. -/
def pySplitGo (sep : List Char) : ℕ → List Char → List Char → List String
  | 0, cs, acc => [⟨(acc.reverse) ++ cs⟩]
  | _ + 1, [], acc => [⟨acc.reverse⟩]
  | fuel + 1, c :: rest, acc =>
    if sep.isPrefixOf (c :: rest) then
      ⟨acc.reverse⟩ :: pySplitGo sep fuel ((c :: rest).drop sep.length) []
    else pySplitGo sep fuel rest (c :: acc)

/-- Python `s.split(sep)` (raises on an empty separator; returns `[s]`
here, unreachable in the service). -/
def pySplit (s sep : String) : List String :=
  if sep.data.isEmpty then [s]
  else pySplitGo sep.data (s.data.length + 1) s.data []

/-- Decimal value of a digit list (most significant first). -/
def natOfDigits (ds : List Char) : ℕ :=
  ds.foldl (fun a c => 10 * a + (c.toNat - 48)) 0

/-- `float(s)` on an already-stripped string: optional sign, digits with an
optional fraction, optional decimal exponent.  (`inf`/`nan` and digit
underscores are accepted by CPython but fall outside the rational model,
so they are rejected here.) -/
def parseFloatChars (cs0 : List Char) : Option ℚ :=
  let signRest : Bool × List Char :=
    match cs0 with
    | '+' :: t => (false, t)
    | '-' :: t => (true, t)
    | _ => (false, cs0)
  let neg := signRest.1
  let cs1 := signRest.2
  let intDs := cs1.takeWhile (·.isDigit)
  let cs2 := cs1.dropWhile (·.isDigit)
  let fracSplit : List Char × List Char :=
    match cs2 with
    | '.' :: t => (t.takeWhile (·.isDigit), t.dropWhile (·.isDigit))
    | _ => ([], cs2)
  let fracDs := fracSplit.1
  let cs3 := fracSplit.2
  if intDs.isEmpty && fracDs.isEmpty then none
  else
    let mant : ℚ :=
      qadd (qnat (natOfDigits intDs)) (qdivNat (qnat (natOfDigits fracDs)) (10 ^ fracDs.length))
    let signed : ℚ → ℚ := fun q => if neg then qneg q else q
    match cs3 with
    | [] => some (signed mant)
    | 'e' :: t =>
      (match t with
       | '+' :: u => if u ≠ [] && u.all (·.isDigit)
           then some (signed (qmul mant (qtenPow (natOfDigits u)))) else Option.none
       | '-' :: u => if u ≠ [] && u.all (·.isDigit)
           then some (signed (qdivNat mant (10 ^ (natOfDigits u)))) else Option.none
       | u => if u ≠ [] && u.all (·.isDigit)
           then some (signed (qmul mant (qtenPow (natOfDigits u)))) else Option.none)
    | 'E' :: t =>
      (match t with
       | '+' :: u => if u ≠ [] && u.all (·.isDigit)
           then some (signed (qmul mant (qtenPow (natOfDigits u)))) else Option.none
       | '-' :: u => if u ≠ [] && u.all (·.isDigit)
           then some (signed (qdivNat mant (10 ^ (natOfDigits u)))) else Option.none
       | u => if u ≠ [] && u.all (·.isDigit)
           then some (signed (qmul mant (qtenPow (natOfDigits u)))) else Option.none)
    | _ => none

/-- `float(v)` for a Python value (`bool` is an `int` subclass in Python,
so `float(True) = 1.0`; non-numeric values raise, modelled as `.error`
carrying the exception text). -/
def pyFloat : Py → Except String ℚ
  | .num q => .ok q
  | .bool b => .ok (if b then 1 else 0)
  | .str s =>
    match parseFloatChars (pyStrip s).data with
    | some q => .ok q
    | Option.none => .error ("could not convert string to float: " ++ s)
  | .none => .error "float() argument must be a string or a real number, not NoneType"
  | .list _ => .error "float() argument must be a string or a real number, not list"
  | .dict _ => .error "float() argument must be a string or a real number, not dict"

/-- `d.get(key, default)`; raises (AttributeError) on a non-dict, which the
service's outer `except` then converts to an error result. -/
def pyGetD (v : Py) (key : String) (dflt : Py) : Except String Py :=
  match v with
  | .dict kvs => .ok ((kvs.lookup key).getD dflt)
  | _ => .error ("object has no attribute get: " ++ key)

/-- Python `round` to integer: round-half-to-even (banker's rounding). -/
def roundHalfEven (q : ℚ) : ℤ :=
  let f := ⌊q⌋
  let frac := qsub q (qint f)
  if frac < mkRat 1 2 then f
  else if mkRat 1 2 < frac then f + 1
  else if f % 2 = 0 then f else f + 1

/-- Python `round(q, n)` on the rational model of a float. -/
def pyRound (q : ℚ) (n : ℕ) : ℚ :=
  qdivNat (qint (roundHalfEven (qmul q (qtenPow n)))) (10 ^ n)

/-! ## The analysis result

`analyze_damage_with_gemini` (app.py lines 108-282) always returns a dict
with exactly the keys `severity`, `damage_parts`, `confidence`,
`is_vehicle`, `validation_error`; we model it as a structure.  `severity`
and `confidence` are floats, `is_vehicle` a bool literal in every branch,
`damage_parts` a Python list, and `validation_error` either `None`, or the
model's `description` value, or an error string. -/

structure Analysis where
  severity : ℚ
  damage_parts : List Py
  confidence : ℚ
  is_vehicle : Bool
  validation_error : Py
deriving Repr

/-- The mock result returned when the Gemini client is not initialized
(app.py lines 113-122); `sevDraw`/`confDraw` are the two `random.uniform`
draws. -/
def mockAnalysis (sevDraw confDraw : ℚ) : Analysis :=
  { severity := sevDraw
    damage_parts := [.str "front_bumper", .str "headlight", .str "hood"]
    confidence := confDraw
    is_vehicle := true
    validation_error := .none }

/-- The result built by the outer `except` of the Gemini path
(app.py lines 272-282): mock data carrying the exception text. -/
def errorAnalysis (e : String) : Analysis :=
  { severity := 50
    damage_parts := [.str "unknown"]
    confidence := mkRat 1 2
    is_vehicle := true
    validation_error := .str ("Analysis error: " ++ e) }

/-! ## Reply-text parsing (app.py lines 213-241) -/

/-- Lines 213 and 217-220: strip the reply, then pull the content out of a
markdown code fence when one is present (`split("```json")[1].split("```")[0]`
after an `in` check, and the same with plain triple backticks). -/
def extractFenced (raw : String) : String :=
  let t := pyStrip raw
  if strContains t "```json" then
    pyStrip (((pySplit ((pySplit t "```json").getD 1 "") "```").getD 0 ""))
  else if strContains t "```" then
    pyStrip (((pySplit ((pySplit t "```").getD 1 "") "```").getD 0 ""))
  else t

/-- `\s` of Python `re` (ASCII subset; `re.UNICODE` additions are outside
the model). -/
def reWs (c : Char) : Bool :=
  c = ' ' || c = '\t' || c = '\n' || c = '\r' || c = '\x0b' || c = '\x0c'

/-- Try to match `"severity"\s*:\s*(\d+)` at the head of `cs`, returning
the captured integer (`\d+` is greedy, so the maximal digit run). -/
def matchSevAt (cs : List Char) : Option ℕ :=
  if ("\"severity\"").data.isPrefixOf cs then
    let r := (cs.drop 10).dropWhile reWs
    match r with
    | ':' :: r2 =>
      let ds := (r2.dropWhile reWs).takeWhile (·.isDigit)
      if ds.isEmpty then Option.none else some (natOfDigits ds)
    | _ => Option.none
  else Option.none

/-- `re.search(r'"severity"\s*:\s*(\d+)', text)`: leftmost match wins. -/
def searchSev : List Char → Option ℕ
  | [] => Option.none
  | c :: rest =>
    match matchSevAt (c :: rest) with
    | some n => some n
    | Option.none => searchSev rest

/-- The regex fallback dict built when `json.loads` fails
(app.py lines 226-241). -/
def jsonFallback (t : String) : Py :=
  let severity : ℕ := (searchSev t.data).getD 50
  let lower := pyLower t
  let is_vehicle : Bool := !(strContains lower "is_vehicle") || strContains lower "true"
  .dict [("is_vehicle", .bool is_vehicle),
         ("severity", .num (qnat severity)),
         ("damage_parts", .list (if severity > 0 then [.str "unknown"] else [])),
         ("confidence", .num (mkRat 7 10)),
         ("description", .str (t.take 100))]

/-! ## Validation and formatting (app.py lines 243-270) -/

/-- Lines 243-270: read the fields out of the decoded reply, clamp severity
into `[0,100]` and confidence into `[0,1]`, and either zero everything out
on vehicle-gate rejection or round and return.  A raised exception
(`.get` on a non-dict, `float()` on a non-number) escapes to the outer
`except` of the caller. -/
def validateResult (result : Py) : Except String Analysis := do
  let is_vehicle ← pyGetD result "is_vehicle" (.bool true)
  let sevRaw ← pyGetD result "severity" (.num 0)
  let severity ← pyFloat sevRaw
  let damage_parts ← pyGetD result "damage_parts" (.list [])
  let confRaw ← pyGetD result "confidence" (.num (mkRat 7 10))
  let confidence ← pyFloat confRaw
  let severity := max 0 (min 100 severity)
  let confidence := max 0 (min 1 confidence)
  if ¬ pyTruthy is_vehicle then
    let desc ← pyGetD result "description" (.str "Image does not appear to contain a vehicle")
    return { severity := 0
             damage_parts := []
             confidence := 0
             is_vehicle := false
             validation_error := desc }
  else
    return { severity := pyRound severity 2
             damage_parts := match damage_parts with | .list xs => xs | _ => []
             confidence := pyRound confidence 3
             is_vehicle := true
             validation_error := .none }

/-! ## The inference backend as a whole (app.py lines 108-282) -/

/-- Outcome of the `Image.open` + `generate_content` call: either the
reply text `response.text`, or a raised exception with its text. -/
inductive InferOutcome where
  | ok : String → InferOutcome
  | error : String → InferOutcome
deriving Repr

/-- The oracle inputs of `analyze_damage_with_gemini`: whether
`gemini_client` was initialized, the two `random.uniform` draws used by
the mock branch, and the outcome of the remote call. -/
structure GeminiEnv where
  clientInit : Bool
  sevDraw : ℚ
  confDraw : ℚ
  infer : InferOutcome

/-- `json.loads` is library code; it is modelled as an oracle: `Option.none`
means a `JSONDecodeError`, `some v` the decoded document. -/
def Decoder : Type := String → Option Py

/-- Lines 216-241: the dict the reply text decodes to — `json.loads` on
the fence-extracted text, with the regex fallback when decoding fails. -/
def parsedReply (decode : Decoder) (text : String) : Py :=
  let t := extractFenced text
  match decode t with
  | some r => r
  | Option.none => jsonFallback t

/-- `analyze_damage_with_gemini`, continued: run the remote call,
fence-extract and decode the reply (`parsedReply`), validate/clamp, and
convert any raised exception into `errorAnalysis`. -/
def analyze_damage_with_gemini (env : GeminiEnv) (decode : Decoder) : Analysis :=
  if ¬ env.clientInit then mockAnalysis env.sevDraw env.confDraw
  else
    match env.infer with
    | .error e => errorAnalysis e
    | .ok text =>
      match validateResult (parsedReply decode text) with
      | .ok a => a
      | .error e => errorAnalysis e

/-! ## Content fetcher (app.py lines 89-106) -/

/-- Outcome of `requests.get(f"{IPFS_GATEWAY}/{cid}", timeout=30)`:
a response with its status and body bytes, or a raised network error. -/
inductive FetchOutcome where
  | response : ℕ → List ℕ → FetchOutcome
  | netError : String → FetchOutcome
deriving Repr

/-- `download_from_ipfs` (app.py lines 89-106): a 200 yields the body; any
other status raises inside the `try`, and the outer `except` re-wraps both
that and a network error as `Failed to download from IPFS: ...`. -/
def download_from_ipfs (_cid : String) (f : FetchOutcome) : Except String (List ℕ) :=
  match f with
  | .response s content =>
    if s = 200 then .ok content
    else .error ("Failed to download from IPFS: IPFS gateway returned status " ++ toString s)
  | .netError m => .error ("Failed to download from IPFS: " ++ m)

/-! ## Report publisher (app.py lines 284-361) -/

/-- The Pinata credential environment variables (`None` when unset). -/
structure PinataCreds where
  jwt : Option String
  apiKey : Option String
  secret : Option String

/-- Truthiness of an env-var value (`os.getenv` returns `None` or a
string; the empty string is falsy). -/
def optTruthy : Option String → Bool
  | some s => s ≠ ""
  | Option.none => false

/-- Outcome of the Pinata POST: a response with status and (when `.json()`
succeeded) its decoded body, or a raised network error. -/
inductive PinOutcome where
  | response : ℕ → Option Py → PinOutcome
  | netError : String → PinOutcome
deriving Repr

/-- `upload_to_ipfs` (app.py lines 284-361).  The serialized request body
`json.dumps(data, indent=2)` is modelled separately (`pyDumps`); only the
outcome matters here.  Missing credentials, a non-200 status, an
unparsable or CID-less body, and any raised error all return `None`
(`Py.none`) — the function never raises. -/
def upload_to_ipfs (_data : Py) (creds : PinataCreds) (pin : PinOutcome) : Py :=
  if ¬ (optTruthy creds.jwt || (optTruthy creds.apiKey && optTruthy creds.secret)) then
    .none
  else
    match pin with
    | .netError _ => .none
    | .response status body =>
      if status = 200 then
        match body with
        | some (.dict kvs) =>
          -- cid = result.get('IpfsHash') or result.get('Hash'); `or` keeps the first truthy value
          let h1 := (kvs.lookup "IpfsHash").getD .none
          let cid := if pyTruthy h1 then h1 else (kvs.lookup "Hash").getD .none
          if pyTruthy cid then cid else .none
        | some _ => .none     -- `.get` raised; the inner except returns None
        | Option.none => .none  -- `.json()` raised; the inner except returns None
      else .none

/-! ## The pydantic response model (app.py lines 59-66) -/

/-- The `MLReport` pydantic model.  Note it has no `evidenceCID` field:
pydantic's default `extra='ignore'` silently drops that key of the report
dict, and `response_model=MLReport` filters the body to these fields. -/
structure MLReport where
  severity : ℚ
  damage_parts : List Py
  confidence : ℚ
  timestamp : String
  mlReportCID : Py
  is_vehicle : Bool
  validation_error : Py
deriving Repr

/-- `MLReport(**d)`: extract the declared fields, ignore extra keys,
default the optional ones, and fail validation otherwise (a raised
`ValidationError` reaches the route's catch-all).  pydantic's lax
coercions are modelled only as far as the service can exercise them. -/
def MLReport.ofDict (d : List (String × Py)) : Except String MLReport := do
  let sev ← match d.lookup "severity" with
    | some v => pyFloat v
    | Option.none => Except.error "Field required: severity"
  let parts ← match d.lookup "damage_parts" with
    | some (.list xs) => Except.ok xs
    | some _ => Except.error "Input should be a valid list: damage_parts"
    | Option.none => Except.error "Field required: damage_parts"
  let conf ← match d.lookup "confidence" with
    | some v => pyFloat v
    | Option.none => Except.error "Field required: confidence"
  let ts ← match d.lookup "timestamp" with
    | some (.str s) => Except.ok s
    | some _ => Except.error "Input should be a valid string: timestamp"
    | Option.none => Except.error "Field required: timestamp"
  let mlCid ← match d.lookup "mlReportCID" with
    | some Py.none => Except.ok Py.none
    | some (.str s) => Except.ok (Py.str s)
    | some _ => Except.error "Input should be a valid string: mlReportCID"
    | Option.none => Except.ok Py.none
  let isVeh ← match d.lookup "is_vehicle" with
    | some (.bool b) => Except.ok b
    | some _ => Except.error "Input should be a valid boolean: is_vehicle"
    | Option.none => Except.ok true
  let vErr ← match d.lookup "validation_error" with
    | some Py.none => Except.ok Py.none
    | some (.str s) => Except.ok (Py.str s)
    | some _ => Except.error "Input should be a valid string: validation_error"
    | Option.none => Except.ok Py.none
  return { severity := sev, damage_parts := parts, confidence := conf,
           timestamp := ts, mlReportCID := mlCid, is_vehicle := isVeh,
           validation_error := vErr }

/-! ## HTTP surface (app.py lines 382-498) -/

/-- The structured `detail` body of the vehicle-gate 400. -/
structure ErrorDetail where
  error : String
  message : Py
  severity : ℚ
  is_vehicle : Bool
deriving Repr

/-- An HTTP response of the two analyze routes: a 200 validated through
`MLReport` (`/analyze`), a raw-dict 200 (`/analyze/upload`, which has no
`response_model`), a 400 with structured detail, or a 500 with the
exception text. -/
inductive Resp where
  | okModel : MLReport → Resp
  | okDict : List (String × Py) → Resp
  | badRequest : ErrorDetail → Resp
  | serverError : String → Resp
deriving Repr

/-- The shared gate check of both routes (app.py lines 402 and 460):
`not analysis.get("is_vehicle", True) or analysis.get("validation_error")`.
Every analysis dict carries both keys, so the `.get` defaults are dead. -/
def gateCheck (a : Analysis) : Bool :=
  !a.is_vehicle || pyTruthy a.validation_error

/-- The 400 detail both routes raise (app.py lines 406-414 and 463-471).
`message` is `analysis.get("validation_error", "Image validation failed")`;
the key is always present, so it is the analysis's `validation_error`. -/
def rejectDetail (a : Analysis) : ErrorDetail :=
  { error := "Invalid image: Not a vehicle"
    message := a.validation_error
    severity := 0
    is_vehicle := false }

/-- The report dict as both routes build it (app.py lines 417-425 and
473-480); `/analyze` inserts `evidenceCID` after `timestamp`,
`/analyze/upload` does not. -/
def reportDict (a : Analysis) (ts : String) (evidenceCID : Option String) :
    List (String × Py) :=
  [("severity", .num a.severity),
   ("damage_parts", .list a.damage_parts),
   ("confidence", .num a.confidence),
   ("timestamp", .str ts)] ++
  (match evidenceCID with
   | some c => [("evidenceCID", Py.str c)]
   | Option.none => []) ++
  [("is_vehicle", .bool a.is_vehicle),
   ("validation_error", a.validation_error)]

/-- Python dict item assignment `d[k] = v`: replace in place, or append
when the key is new. -/
def dictSet (d : List (String × Py)) (k : String) (v : Py) : List (String × Py) :=
  if d.any (fun kv => kv.1 == k) then
    d.map (fun kv => if kv.1 == k then (k, v) else kv)
  else d ++ [(k, v)]

/-- Oracle inputs of the `/analyze` route. -/
structure IpfsRouteEnv where
  fetch : FetchOutcome
  gemini : GeminiEnv
  creds : PinataCreds
  pin : PinOutcome
  timestamp : String

/-- `analyze_from_ipfs` (app.py lines 382-443): fetch → infer → gate →
report → publish → respond; a fetch failure (or any other non-HTTPException
escape) becomes a 500 with the exception text. -/
def analyze_from_ipfs (env : IpfsRouteEnv) (decode : Decoder) (ipfsCid : String) : Resp :=
  match download_from_ipfs ipfsCid env.fetch with
  | .error e => .serverError e
  | .ok _bytes =>
    let analysis := analyze_damage_with_gemini env.gemini decode
    if gateCheck analysis then .badRequest (rejectDetail analysis)
    else
      let report := reportDict analysis env.timestamp (some ipfsCid)
      let mlReportCID := upload_to_ipfs (.dict report) env.creds env.pin
      let report := if pyTruthy mlReportCID then dictSet report "mlReportCID" mlReportCID
                    else report
      match MLReport.ofDict report with
      | .ok m => .okModel m
      | .error e => .serverError e

/-- Oracle inputs of the `/analyze/upload` route; `readOk` is the outcome
of `await file.read()` (the bytes themselves only feed the inference
oracle). -/
structure UploadRouteEnv where
  readOk : Except String Unit
  gemini : GeminiEnv
  creds : PinataCreds
  pin : PinOutcome
  timestamp : String

/-- `analyze_upload` (app.py lines 445-498): same pipeline without the
fetch step and without `evidenceCID`; the raw report dict is returned
(the route declares no `response_model`). -/
def analyze_upload (env : UploadRouteEnv) (decode : Decoder) : Resp :=
  match env.readOk with
  | .error e => .serverError e
  | .ok _ =>
    let analysis := analyze_damage_with_gemini env.gemini decode
    if gateCheck analysis then .badRequest (rejectDetail analysis)
    else
      let report := reportDict analysis env.timestamp Option.none
      let mlReportCID := upload_to_ipfs (.dict report) env.creds env.pin
      let report := if pyTruthy mlReportCID then dictSet report "mlReportCID" mlReportCID
                    else report
      .okDict report

/-- The JSON body FastAPI serializes for an `MLReport` 200: exactly the
model's declared fields (nothing else survives `response_model`). -/
def MLReport.body (m : MLReport) : List (String × Py) :=
  [("severity", .num m.severity),
   ("damage_parts", .list m.damage_parts),
   ("confidence", .num m.confidence),
   ("timestamp", .str m.timestamp),
   ("mlReportCID", m.mlReportCID),
   ("is_vehicle", .bool m.is_vehicle),
   ("validation_error", m.validation_error)]

/-- The body of a 200 response, when the response is a 200. -/
def Resp.body200 : Resp → Option (List (String × Py))
  | .okModel m => some m.body
  | .okDict d => some d
  | _ => Option.none

/-! ## JSON serialization (`json.dumps(data, indent=2)`) and parsing

`upload_to_ipfs` serializes the report with `json.dumps(data, indent=2)`
(app.py line 294).  We model the serializer character-for-character
(indentation, `", "`/`": "` separators, `ensure_ascii` escaping) and give a
concrete model of `json.loads` on this grammar, so that the round-trip
property is a theorem about real strings.  A Python float is a dyadic
rational and always has a finite decimal expansion; `pyWfNum` captures
exactly that, and the printer renders such a number exactly. -/

/-- Multiplicity of `p` in `n`, fuelled (fuel `n` suffices). -/
def multAux (p : ℕ) : ℕ → ℕ → ℕ
  | 0, _ => 0
  | fuel + 1, n => if p ∣ n ∧ 2 ≤ p ∧ p ≤ n then 1 + multAux p fuel (n / p) else 0

/-- Exponent `k` with `q * 10^k` integral whenever `q` is a finite
decimal: the larger of the multiplicities of 2 and 5 in the denominator. -/
def decExp (q : ℚ) : ℕ :=
  max (multAux 2 q.den q.den) (multAux 5 q.den q.den)

/-- `q` has a finite decimal expansion (true of every Python float). -/
def pyWfNum (q : ℚ) : Bool :=
  (qmul q (qtenPow (decExp q))).den == 1

/-- Little-endian decimal digits of `n` (fuelled; fuel `n` suffices). -/
def natToDigitsRev : ℕ → ℕ → List Char
  | 0, _ => []
  | fuel + 1, n =>
    if n = 0 then [] else Char.ofNat (48 + n % 10) :: natToDigitsRev fuel (n / 10)

/-- Decimal digit characters of `n`, most significant first. -/
def natToChars (n : ℕ) : List Char :=
  if n = 0 then ['0'] else (natToDigitsRev n n).reverse

/-- The scaled integer `q * 10^(decExp q)` as an `Int` (exact whenever
`q` is a finite decimal). -/
def mNum (q : ℚ) : ℤ :=
  (qmul q (qtenPow (decExp q))).num

/-- The decimal digits of `|mNum q|`, zero-padded so that at least one
digit precedes the decimal point. -/
def padDigits (q : ℚ) : List Char :=
  let ds0 := natToChars (mNum q).natAbs
  if ds0.length ≤ decExp q then List.replicate (decExp q + 1 - ds0.length) '0' ++ ds0 else ds0

/-- Render the finite decimal `q`: scaled integer digits with a decimal
point inserted `decExp q` places from the right. -/
def renderNum (q : ℚ) : List Char :=
  (if q < 0 then ['-'] else []) ++
    (if decExp q = 0 then padDigits q
     else (padDigits q).take ((padDigits q).length - decExp q) ++
       '.' :: (padDigits q).drop ((padDigits q).length - decExp q))

/-- Lowercase hex digit. -/
def hexDigit (d : ℕ) : Char :=
  Char.ofNat (if d < 10 then 48 + d else 87 + d)

/-- Four-digit lowercase hex rendering of `n < 65536` (as in `\uXXXX`). -/
def hex4 (n : ℕ) : List Char :=
  [hexDigit (n / 4096 % 16), hexDigit (n / 256 % 16), hexDigit (n / 16 % 16), hexDigit (n % 16)]

/-- JSON escaping of one character, as `json.dumps` does with its default
`ensure_ascii=True`: short escapes for the usual controls, `\uXXXX` for
other controls and all non-ASCII, surrogate pairs beyond the BMP. -/
def escapeChar (c : Char) : List Char :=
  if c = '"' then ['\\', '"']
  else if c = '\\' then ['\\', '\\']
  else if c = '\n' then ['\\', 'n']
  else if c = '\r' then ['\\', 'r']
  else if c = '\t' then ['\\', 't']
  else if c = '\x08' then ['\\', 'b']
  else if c = '\x0c' then ['\\', 'f']
  else if c.toNat < 32 then '\\' :: 'u' :: hex4 c.toNat
  else if c.toNat < 127 then [c]
  else if c.toNat < 65536 then '\\' :: 'u' :: hex4 c.toNat
  else
    let v := c.toNat - 65536
    '\\' :: 'u' :: hex4 (55296 + v / 1024) ++ '\\' :: 'u' :: hex4 (56320 + v % 1024)

/-- The escaped body of a JSON string literal. -/
def escBody (chars : List Char) : List Char :=
  (chars.map escapeChar).flatten

/-- A JSON string literal for `s`, quotes included. -/
def renderStr (s : String) : List Char :=
  '"' :: escBody s.data ++ ['"']

/-- The `indent=2` padding at nesting depth `ind`. -/
def pad (ind : ℕ) : List Char :=
  List.replicate (2 * ind) ' '

mutual

/-- `json.dumps(v, indent=2)` at nesting depth `ind`, as characters. -/
def dumpVal (ind : ℕ) : Py → List Char
  | .none => 'n' :: ['u', 'l', 'l']
  | .bool true => 't' :: ['r', 'u', 'e']
  | .bool false => 'f' :: ['a', 'l', 's', 'e']
  | .num q => renderNum q
  | .str s => renderStr s
  | .list [] => ['[', ']']
  | .list (x :: xs) =>
    '[' :: '\n' :: pad (ind + 1) ++ dumpItems (ind + 1) (x :: xs) ++ '\n' :: pad ind ++ [']']
  | .dict [] => ['\x7b', '\x7d']
  | .dict (kv :: kvs) =>
    '\x7b' :: '\n' :: pad (ind + 1) ++ dumpPairs (ind + 1) (kv :: kvs) ++ '\n' :: pad ind ++ ['\x7d']

/-- Comma-newline-indent separated array items. -/
def dumpItems (ind : ℕ) : List Py → List Char
  | [] => []
  | [x] => dumpVal ind x
  | x :: y :: ys => dumpVal ind x ++ ',' :: '\n' :: pad ind ++ dumpItems ind (y :: ys)

/-- Comma-newline-indent separated `"key": value` object members. -/
def dumpPairs (ind : ℕ) : List (String × Py) → List Char
  | [] => []
  | [(k, v)] => renderStr k ++ ':' :: ' ' :: dumpVal ind v
  | (k, v) :: kv :: kvs =>
    renderStr k ++ ':' :: ' ' :: dumpVal ind v ++ ',' :: '\n' :: pad ind ++ dumpPairs ind (kv :: kvs)

end

/-- `json.dumps(v, indent=2)`. -/
def pyDumps (v : Py) : String :=
  ⟨dumpVal 0 v⟩

/-- JSON insignificant whitespace. -/
def jsonWs (c : Char) : Bool :=
  c = ' ' || c = '\n' || c = '\t' || c = '\r'

/-- Skip insignificant whitespace. -/
def skipWs (cs : List Char) : List Char :=
  cs.dropWhile jsonWs

/-- Hex digit value. -/
def hexVal (c : Char) : Option ℕ :=
  if '0' ≤ c ∧ c ≤ '9' then some (c.toNat - 48)
  else if 'a' ≤ c ∧ c ≤ 'f' then some (c.toNat - 87)
  else if 'A' ≤ c ∧ c ≤ 'F' then some (c.toNat - 55)
  else Option.none

/-- Parse the body of a JSON string literal (opening quote consumed),
returning the unescaped characters and the unconsumed suffix; fuelled,
one recursion step per produced character. -/
def goStr : ℕ → List Char → Option (List Char × List Char)
  | 0, _ => Option.none
  | fuel + 1, cs =>
    match cs with
    | [] => Option.none
    | c :: rest =>
      if c = '"' then some ([], rest)
      else if c = '\\' then
        match rest with
        | [] => Option.none
        | e :: r2 =>
          if e = 'u' then
            match r2 with
            | h1 :: h2 :: h3 :: h4 :: r3 =>
              (match hexVal h1, hexVal h2, hexVal h3, hexVal h4 with
               | some x1, some x2, some x3, some x4 =>
                 let n := ((x1 * 16 + x2) * 16 + x3) * 16 + x4
                 if 55296 ≤ n ∧ n < 56320 then
                   match r3 with
                   | '\\' :: 'u' :: g1 :: g2 :: g3 :: g4 :: r4 =>
                     (match hexVal g1, hexVal g2, hexVal g3, hexVal g4 with
                      | some y1, some y2, some y3, some y4 =>
                        let m := ((y1 * 16 + y2) * 16 + y3) * 16 + y4
                        if 56320 ≤ m ∧ m < 57344 then
                          (goStr fuel r4).map
                            (fun p =>
                              (Char.ofNat ((n - 55296) * 1024 + (m - 56320) + 65536) :: p.1, p.2))
                        else Option.none
                      | _, _, _, _ => Option.none)
                   | _ => Option.none
                 else if 56320 ≤ n ∧ n < 57344 then Option.none
                 else (goStr fuel r3).map (fun p => (Char.ofNat n :: p.1, p.2))
               | _, _, _, _ => Option.none)
            | _ => Option.none
          else
            match
              (if e = '"' then some '"' else if e = '\\' then some '\\'
               else if e = '/' then some '/' else if e = 'n' then some '\n'
               else if e = 't' then some '\t' else if e = 'r' then some '\r'
               else if e = 'b' then some '\x08' else if e = 'f' then some '\x0c'
               else Option.none) with
            | some ch => (goStr fuel r2).map (fun p => (ch :: p.1, p.2))
            | Option.none => Option.none
      else (goStr fuel rest).map (fun p => (c :: p.1, p.2))

/-- Parse a string literal body with the input length as fuel. -/
def jparseStr (cs : List Char) : Option (List Char × List Char) :=
  goStr (cs.length + 1) cs

/-- Parse the digits-dot-digits core of a JSON number. -/
def jparseNumCore (cs1 : List Char) : Option (ℚ × List Char) :=
  let ds := cs1.takeWhile (·.isDigit)
  let r1 := cs1.dropWhile (·.isDigit)
  if ds.isEmpty then Option.none
  else
    match r1 with
    | [] => some (qnat (natOfDigits ds), r1)
    | c :: t =>
      if c = '.' then
        let fs := t.takeWhile (·.isDigit)
        let r2 := t.dropWhile (·.isDigit)
        if fs.isEmpty then Option.none
        else some (qadd (qnat (natOfDigits ds)) (qdivNat (qnat (natOfDigits fs)) (10 ^ fs.length)), r2)
      else some (qnat (natOfDigits ds), r1)

/-- Parse a JSON number (no exponent — the printer never emits one). -/
def jparseNum (cs : List Char) : Option (ℚ × List Char) :=
  match cs with
  | [] => Option.none
  | c :: t =>
    if c = '-' then (jparseNumCore t).map (fun p => (qneg p.1, p.2))
    else jparseNumCore (c :: t)

mutual

/-- Parse one JSON value; `fuel` bounds the node count. -/
def jparseVal : ℕ → List Char → Option (Py × List Char)
  | 0, _ => Option.none
  | fuel + 1, cs =>
    match skipWs cs with
    | [] => Option.none
    | c :: r =>
      if c = 'n' then
        match r with
        | 'u' :: 'l' :: 'l' :: r2 => some (.none, r2)
        | _ => Option.none
      else if c = 't' then
        match r with
        | 'r' :: 'u' :: 'e' :: r2 => some (.bool true, r2)
        | _ => Option.none
      else if c = 'f' then
        match r with
        | 'a' :: 'l' :: 's' :: 'e' :: r2 => some (.bool false, r2)
        | _ => Option.none
      else if c = '"' then
        (jparseStr r).map (fun p => (.str ⟨p.1⟩, p.2))
      else if c = '[' then
        (if (skipWs r).head? = some ']' then some (.list [], (skipWs r).tail)
         else (jparseItems fuel r).map (fun p => (.list p.1, p.2)))
      else if c = '\x7b' then
        (if (skipWs r).head? = some '\x7d' then some (.dict [], (skipWs r).tail)
         else (jparsePairs fuel r).map (fun p => (.dict p.1, p.2)))
      else
        (jparseNum (c :: r)).map (fun p => (.num p.1, p.2))

/-- Parse array items up to and including the closing bracket. -/
def jparseItems : ℕ → List Char → Option (List Py × List Char)
  | 0, _ => Option.none
  | fuel + 1, cs =>
    match jparseVal fuel cs with
    | some (v, r) =>
      (match skipWs r with
       | [] => Option.none
       | c :: r2 =>
         if c = ',' then
           match jparseItems fuel r2 with
           | some (vs, r3) => some (v :: vs, r3)
           | Option.none => Option.none
         else if c = ']' then some ([v], r2)
         else Option.none)
    | Option.none => Option.none

/-- Parse object members up to and including the closing brace. -/
def jparsePairs : ℕ → List Char → Option (List (String × Py) × List Char)
  | 0, _ => Option.none
  | fuel + 1, cs =>
    match skipWs cs with
    | [] => Option.none
    | c :: r =>
      if c = '"' then
        match jparseStr r with
        | some (kcs, r1) =>
          (match skipWs r1 with
           | [] => Option.none
           | c1 :: r2 =>
             if c1 = ':' then
               match jparseVal fuel r2 with
               | some (v, r3) =>
                 (match skipWs r3 with
                  | [] => Option.none
                  | c2 :: r4 =>
                    if c2 = ',' then
                      match jparsePairs fuel r4 with
                      | some (ps, r5) => some ((⟨kcs⟩, v) :: ps, r5)
                      | Option.none => Option.none
                    else if c2 = '\x7d' then some ([(⟨kcs⟩, v)], r4)
                    else Option.none)
               | Option.none => Option.none
             else Option.none)
        | Option.none => Option.none
      else Option.none

end

mutual

/-- Node count of a Python value (a fuel bound for the parser). -/
def pySize : Py → ℕ
  | .none | .bool _ | .num _ | .str _ => 1
  | .list xs => 1 + pySizeList xs
  | .dict kvs => 1 + pySizePairs kvs

/-- Total node count of a list of values (one extra per element, matching
the parser's fuel use). -/
def pySizeList : List Py → ℕ
  | [] => 0
  | x :: xs => 1 + pySize x + pySizeList xs

/-- Total node count of object members. -/
def pySizePairs : List (String × Py) → ℕ
  | [] => 0
  | (_, v) :: kvs => 1 + pySize v + pySizePairs kvs

end

mutual

/-- Every number in the document is a finite decimal — true of every
Python value built from floats/ints, hence of every document the service
serializes. -/
def pyWf : Py → Bool
  | .none | .bool _ | .str _ => true
  | .num q => pyWfNum q
  | .list xs => pyWfList xs
  | .dict kvs => pyWfPairs kvs

/-- `pyWf` on array items. -/
def pyWfList : List Py → Bool
  | [] => true
  | x :: xs => pyWf x && pyWfList xs

/-- `pyWf` on object members. -/
def pyWfPairs : List (String × Py) → Bool
  | [] => true
  | (_, v) :: kvs => pyWf v && pyWfPairs kvs

end

/-- `json.loads` on the serializer's grammar. -/
def jsonLoads (s : String) : Option Py :=
  match jparseVal (s.data.length + 1) s.data with
  | some (v, rest) => if (skipWs rest).isEmpty then some v else Option.none
  | Option.none => Option.none

/-! ## Lemmas

Bridges between the kernel-computable arithmetic wrappers and the Mathlib
operations, followed by the structural lemmas the claims need. -/

theorem qadd_eq (a b : ℚ) : qadd a b = a + b := by
  rw [qadd]; exact (Rat.add_def' a b).symm

theorem qsub_eq (a b : ℚ) : qsub a b = a - b := by
  rw [qsub]; exact (Rat.sub_def' a b).symm

theorem qmul_eq (a b : ℚ) : qmul a b = a * b := by
  rw [qmul, Rat.mul_def, Rat.normalize_eq_mkRat]

theorem qneg_eq (a : ℚ) : qneg a = -a := by
  rw [qneg, ← Rat.neg_num a, ← Rat.neg_den a, Rat.mkRat_self]

theorem qint_eq (m : ℤ) : qint m = (m : ℚ) := by
  rw [qint, Rat.mkRat_one]

theorem qnat_eq (n : ℕ) : qnat n = (n : ℚ) := by
  rw [qnat, Rat.mkRat_one]; norm_num

theorem qtenPow_eq (k : ℕ) : qtenPow k = (10 : ℚ) ^ k := by
  rw [qtenPow, Rat.mkRat_one]; push_cast; ring

theorem qdivNat_eq (a : ℚ) (d : ℕ) : qdivNat a d = a / (d : ℚ) := by
  rcases eq_or_ne d 0 with h | h
  · subst h; simp [qdivNat, Rat.mkRat_def]
  · rw [qdivNat, Rat.mkRat_eq_divInt, Rat.divInt_eq_div]
    push_cast
    rw [div_mul_eq_div_div, Rat.num_div_den]

theorem mkRat_half : mkRat 1 2 = (1 : ℚ) / 2 := by
  rw [Rat.mkRat_eq_divInt, Rat.divInt_eq_div]; norm_num

theorem roundHalfEven_bounds {q : ℚ} {B : ℤ} (h0 : 0 ≤ q) (hB : q ≤ (B : ℚ)) :
    0 ≤ roundHalfEven q ∧ roundHalfEven q ≤ B := by
  have hf0 : 0 ≤ ⌊q⌋ := Int.floor_nonneg.mpr h0
  have hfB : ⌊q⌋ ≤ B := by
    calc ⌊q⌋ ≤ ⌊(B : ℚ)⌋ := Int.floor_le_floor hB
    _ = B := Int.floor_intCast B
  have hfq : (⌊q⌋ : ℚ) ≤ q := Int.floor_le q
  simp only [roundHalfEven, qsub_eq, qint_eq, mkRat_half]
  split_ifs with h1 h2 h3
  · exact ⟨hf0, hfB⟩
  · have : (⌊q⌋ : ℚ) + 1 / 2 < (B : ℚ) := by
      have : (1 : ℚ) / 2 < q - ⌊q⌋ := h2
      linarith
    have hlt : ⌊q⌋ < B := by
      have : (⌊q⌋ : ℚ) < (B : ℚ) := by linarith
      exact_mod_cast this
    omega
  · exact ⟨hf0, hfB⟩
  · have heq : q - ⌊q⌋ = 1 / 2 := le_antisymm (not_lt.mp h2) (not_lt.mp h1)
    have : (⌊q⌋ : ℚ) + 1 / 2 ≤ (B : ℚ) := by linarith
    have hlt : ⌊q⌋ < B := by
      have : (⌊q⌋ : ℚ) < (B : ℚ) := by linarith
      exact_mod_cast this
    omega

theorem pyRound_bounds {q : ℚ} {B : ℕ} (n : ℕ) (h0 : 0 ≤ q) (hB : q ≤ (B : ℚ)) :
    0 ≤ pyRound q n ∧ pyRound q n ≤ (B : ℚ) := by
  have hp : (0 : ℚ) < (10 : ℚ) ^ n := by positivity
  have h0' : 0 ≤ q * (10 : ℚ) ^ n := by positivity
  have hB' : q * (10 : ℚ) ^ n ≤ ((B * 10 ^ n : ℤ) : ℚ) := by
    push_cast
    exact mul_le_mul_of_nonneg_right hB (le_of_lt hp)
  obtain ⟨hl, hr⟩ := roundHalfEven_bounds h0' hB'
  rw [pyRound, qdivNat_eq, qint_eq, qmul_eq, qtenPow_eq]
  constructor
  · apply div_nonneg _ (by positivity)
    exact_mod_cast hl
  · rw [div_le_iff₀ (by positivity)]
    have : ((roundHalfEven (q * 10 ^ n) : ℤ) : ℚ) ≤ ((B * 10 ^ n : ℤ) : ℚ) := by exact_mod_cast hr
    push_cast at this ⊢
    linarith

/-- The string-append in error messages is never empty. -/
theorem append_ne_empty (p e : String) (hp : 0 < p.length) : p ++ e ≠ "" := by
  intro h
  have hlen := congrArg String.length h
  rw [String.length_append, String.length_empty] at hlen
  omega

/-- Every `.ok` result of the validation step (app.py lines 243-270) has
severity clamped into `[0,100]`, confidence clamped into `[0,1]`, and is
either a vehicle result with a `None` validation error or a vehicle-gate
rejection with everything zeroed. -/
theorem validateResult_ok {v : Py} {a : Analysis} (h : validateResult v = .ok a) :
    (0 ≤ a.severity ∧ a.severity ≤ 100 ∧ 0 ≤ a.confidence ∧ a.confidence ≤ 1) ∧
    ((a.is_vehicle = true ∧ a.validation_error = Py.none) ∨
     (a.is_vehicle = false ∧ a.severity = 0 ∧ a.confidence = 0 ∧ a.damage_parts = [])) := by
  cases v <;>
    simp only [validateResult, pyGetD, Except.instMonad, Except.bind, Except.pure, bind, pure] at h
  case none => exact Except.noConfusion h
  case bool b => exact Except.noConfusion h
  case num q => exact Except.noConfusion h
  case str s => exact Except.noConfusion h
  case list xs => exact Except.noConfusion h
  case dict kvs =>
    rcases hs : pyFloat ((kvs.lookup "severity").getD (Py.num 0)) with es | s <;> rw [hs] at h
    · simp at h
    rcases hc : pyFloat ((kvs.lookup "confidence").getD (Py.num (mkRat 7 10))) with ec | c <;> rw [hc] at h
    · simp at h
    by_cases hv : pyTruthy ((kvs.lookup "is_vehicle").getD (Py.bool true))
    · simp [hv] at h
      rw [← h]
      refine ⟨?_, Or.inl ⟨rfl, rfl⟩⟩
      have hs1 : (0 : ℚ) ≤ max 0 (min 100 s) := le_max_left _ _
      have hs2 : max 0 (min 100 s) ≤ ((100 : ℕ) : ℚ) := by
        apply max_le
        · norm_num
        · exact le_trans (min_le_left _ _) (by norm_num)
      have hc1 : (0 : ℚ) ≤ max 0 (min 1 c) := le_max_left _ _
      have hc2 : max 0 (min 1 c) ≤ ((1 : ℕ) : ℚ) := by
        apply max_le
        · norm_num
        · exact le_trans (min_le_left _ _) (by norm_num)
      have hsev := pyRound_bounds 2 hs1 hs2
      have hconf := pyRound_bounds 3 hc1 hc2
      exact ⟨hsev.1, by exact_mod_cast hsev.2, hconf.1, by exact_mod_cast hconf.2⟩
    · simp only [Bool.not_eq_true] at hv
      simp [hv] at h
      rw [← h]
      exact ⟨by norm_num, Or.inr ⟨rfl, rfl, rfl, rfl⟩⟩

theorem analyze_reject {env : GeminiEnv} {decode : Decoder} {a : Analysis}
    (ha : analyze_damage_with_gemini env decode = a) (h : a.is_vehicle = false) :
    a.severity = 0 ∧ a.confidence = 0 ∧ a.damage_parts = [] := by
  by_cases hci : env.clientInit
  · simp only [analyze_damage_with_gemini, hci, not_true, if_false, Bool.not_true] at ha
    cases hio : env.infer with
    | error e => simp only [hio] at ha; rw [← ha] at h; simp [errorAnalysis] at h
    | ok text =>
      simp only [hio] at ha
      rcases hvr : validateResult (parsedReply decode text) with e | b <;> simp only [hvr] at ha
      · rw [← ha] at h; simp [errorAnalysis] at h
      · rw [← ha] at h ⊢
        rcases (validateResult_ok hvr).2 with ⟨ht, _⟩ | ⟨_, h1, h2, h3⟩
        · rw [ht] at h; exact absurd h (by simp)
        · exact ⟨h1, h2, h3⟩
  · simp only [analyze_damage_with_gemini, hci, Bool.false_eq_true, not_false_iff, if_true] at ha
    rw [← ha] at h; simp [mockAnalysis] at h

theorem analyze_verr {env : GeminiEnv} {decode : Decoder} {a : Analysis}
    (ha : analyze_damage_with_gemini env decode = a) :
    a.validation_error = Py.none ∨
    (∃ s, a.validation_error = Py.str s ∧ s ≠ "") ∨
    a.is_vehicle = false := by
  by_cases hci : env.clientInit
  · simp only [analyze_damage_with_gemini, hci, not_true, if_false, Bool.not_true] at ha
    cases hio : env.infer with
    | error e =>
      simp only [hio] at ha; rw [← ha]
      exact Or.inr (Or.inl ⟨_, rfl, append_ne_empty _ _ (by decide)⟩)
    | ok text =>
      simp only [hio] at ha
      rcases hvr : validateResult (parsedReply decode text) with e | b <;> simp only [hvr] at ha
      · rw [← ha]
        exact Or.inr (Or.inl ⟨_, rfl, append_ne_empty _ _ (by decide)⟩)
      · rw [← ha]
        rcases (validateResult_ok hvr).2 with ⟨_, hve⟩ | ⟨hf, _⟩
        · exact Or.inl hve
        · exact Or.inr (Or.inr hf)
  · simp only [analyze_damage_with_gemini, hci, Bool.false_eq_true, not_false_iff, if_true] at ha
    rw [← ha]
    exact Or.inl rfl
theorem gateCheck_errorAnalysis (e : String) : gateCheck (errorAnalysis e) = true := by
  simp [gateCheck, errorAnalysis, pyTruthy]
  exact append_ne_empty _ e (by decide)

theorem route_ipfs_bad {ienv : IpfsRouteEnv} {decode : Decoder} {cid : String} {bytes : List ℕ}
    (hfetch : ienv.fetch = .response 200 bytes)
    (hgate : gateCheck (analyze_damage_with_gemini ienv.gemini decode) = true) :
    analyze_from_ipfs ienv decode cid =
      .badRequest (rejectDetail (analyze_damage_with_gemini ienv.gemini decode)) := by
  simp [analyze_from_ipfs, download_from_ipfs, hfetch, hgate]

theorem route_upload_bad {uenv : UploadRouteEnv} {decode : Decoder}
    (hread : uenv.readOk = .ok ())
    (hgate : gateCheck (analyze_damage_with_gemini uenv.gemini decode) = true) :
    analyze_upload uenv decode =
      .badRequest (rejectDetail (analyze_damage_with_gemini uenv.gemini decode)) := by
  simp [analyze_upload, hread, hgate]

/-- C6: every exception raised during inference is caught inside the
backend and converted to a result carrying an embedded validation-error
field (mock data plus `Analysis error: ...`); with the fetch/read step
succeeding, both routes turn that result into a 400, never a 500. -/
theorem c6_inference_error_never_500 (ienv : IpfsRouteEnv) (uenv : UploadRouteEnv)
    (decode : Decoder) (cid : String) (bytes : List ℕ) (e : String)
    (hci : ienv.gemini.clientInit = true) (hio : ienv.gemini.infer = .error e)
    (hg : uenv.gemini = ienv.gemini)
    (hfetch : ienv.fetch = .response 200 bytes) (hread : uenv.readOk = .ok ()) :
    analyze_damage_with_gemini ienv.gemini decode =
      { severity := 50, damage_parts := [.str "unknown"], confidence := mkRat 1 2,
        is_vehicle := true, validation_error := .str ("Analysis error: " ++ e) } ∧
    analyze_from_ipfs ienv decode cid =
      .badRequest ⟨"Invalid image: Not a vehicle", .str ("Analysis error: " ++ e), 0, false⟩ ∧
    analyze_upload uenv decode =
      .badRequest ⟨"Invalid image: Not a vehicle", .str ("Analysis error: " ++ e), 0, false⟩ := by
  have hana : analyze_damage_with_gemini ienv.gemini decode = errorAnalysis e := by
    simp [analyze_damage_with_gemini, hci, hio]
  refine ⟨by rw [hana]; rfl, ?_, ?_⟩
  · rw [route_ipfs_bad hfetch (by rw [hana]; exact gateCheck_errorAnalysis e), hana]
    rfl
  · rw [route_upload_bad hread (by rw [hg, hana]; exact gateCheck_errorAnalysis e), hg, hana]
    rfl

theorem c6_witness :
    (⟨true, 0, 0, .error "boom"⟩ : GeminiEnv).clientInit = true ∧
    analyze_from_ipfs
        ⟨.response 200 [1], ⟨true, 0, 0, .error "boom"⟩,
         ⟨Option.none, Option.none, Option.none⟩, .netError "x", "ts"⟩
        (fun _ => Option.none) "cid" =
      .badRequest ⟨"Invalid image: Not a vehicle", .str ("Analysis error: " ++ "boom"),
                   0, false⟩ := by
  have h := c6_inference_error_never_500
    ⟨.response 200 [1], ⟨true, 0, 0, .error "boom"⟩,
     ⟨Option.none, Option.none, Option.none⟩, .netError "x", "ts"⟩
    ⟨.ok (), ⟨true, 0, 0, .error "boom"⟩,
     ⟨Option.none, Option.none, Option.none⟩, .netError "x", "ts"⟩
    (fun _ => Option.none) "cid" [1] "boom" rfl rfl rfl rfl rfl
  exact ⟨rfl, h.2.1⟩

/-- C5: whenever the inference backend is unavailable (client handle not
initialized) the analysis is the mock result: all fields present,
`is_vehicle` true, no validation error, severity the `uniform(30,90)`
draw and confidence the `uniform(0.6,0.95)` draw (hence in range). -/
theorem c5_mock_when_unavailable (env : GeminiEnv) (decode : Decoder)
    (hci : env.clientInit = false)
    (hs1 : 30 ≤ env.sevDraw) (hs2 : env.sevDraw ≤ 90)
    (hc1 : mkRat 6 10 ≤ env.confDraw) (hc2 : env.confDraw ≤ mkRat 95 100) :
    analyze_damage_with_gemini env decode =
      { severity := env.sevDraw,
        damage_parts := [.str "front_bumper", .str "headlight", .str "hood"],
        confidence := env.confDraw,
        is_vehicle := true,
        validation_error := Py.none } ∧
    30 ≤ (analyze_damage_with_gemini env decode).severity ∧
    (analyze_damage_with_gemini env decode).severity ≤ 90 ∧
    mkRat 6 10 ≤ (analyze_damage_with_gemini env decode).confidence ∧
    (analyze_damage_with_gemini env decode).confidence ≤ mkRat 95 100 ∧
    (analyze_damage_with_gemini env decode).is_vehicle = true ∧
    (analyze_damage_with_gemini env decode).validation_error = Py.none := by
  have hana : analyze_damage_with_gemini env decode =
      { severity := env.sevDraw,
        damage_parts := [.str "front_bumper", .str "headlight", .str "hood"],
        confidence := env.confDraw,
        is_vehicle := true,
        validation_error := Py.none } := by
    simp [analyze_damage_with_gemini, hci, mockAnalysis]
  rw [hana]
  exact ⟨rfl, hs1, hs2, hc1, hc2, rfl, rfl⟩

theorem c5_witness :
    (⟨false, 50, mkRat 8 10, .ok "x"⟩ : GeminiEnv).clientInit = false ∧
    30 ≤ (⟨false, 50, mkRat 8 10, .ok "x"⟩ : GeminiEnv).sevDraw ∧
    (analyze_damage_with_gemini ⟨false, 50, mkRat 8 10, .ok "x"⟩ (fun _ => Option.none)).is_vehicle
      = true ∧
    30 ≤ (analyze_damage_with_gemini ⟨false, 50, mkRat 8 10, .ok "x"⟩
      (fun _ => Option.none)).severity := by
  have h := c5_mock_when_unavailable ⟨false, 50, mkRat 8 10, .ok "x"⟩ (fun _ => Option.none)
    rfl (by decide) (by decide) (by decide) (by decide)
  exact ⟨rfl, by decide, h.2.2.2.2.2.1, h.2.1⟩

/-- C7: a non-200 gateway status and a network failure both produce the
generic fetch error with the status code or message embedded, and the
analyze-by-reference route surfaces any fetch error as a 500 carrying the
raw message. -/
theorem c7_fetch_error_surfaced (cid : String) (f : FetchOutcome)
    (ienv : IpfsRouteEnv) (decode : Decoder) :
    (∀ s content, f = .response s content → s ≠ 200 →
      download_from_ipfs cid f =
        .error ("Failed to download from IPFS: IPFS gateway returned status " ++ toString s)) ∧
    (∀ m, f = .netError m →
      download_from_ipfs cid f = .error ("Failed to download from IPFS: " ++ m)) ∧
    (∀ e, download_from_ipfs cid ienv.fetch = .error e →
      analyze_from_ipfs ienv decode cid = .serverError e) := by
  refine ⟨?_, ?_, ?_⟩
  · rintro s content rfl hs
    simp [download_from_ipfs, hs]
  · rintro m rfl
    rfl
  · intro e he
    simp [analyze_from_ipfs, he]

theorem c7_witness :
    download_from_ipfs "cid" (.response 503 []) =
      .error ("Failed to download from IPFS: IPFS gateway returned status " ++ toString 503) ∧
    analyze_from_ipfs ⟨.response 503 [], ⟨false, 50, 50, .ok "x"⟩,
        ⟨Option.none, Option.none, Option.none⟩, .netError "x", "ts"⟩ (fun _ => Option.none) "cid" =
      .serverError "Failed to download from IPFS: IPFS gateway returned status 503" := by
  have h := c7_fetch_error_surfaced "cid" (.response 503 [])
    ⟨.response 503 [], ⟨false, 50, 50, .ok "x"⟩,
      ⟨Option.none, Option.none, Option.none⟩, .netError "x", "ts"⟩ (fun _ => Option.none)
  exact ⟨h.1 503 [] rfl (by decide), h.2.2 _ (by rfl)⟩

theorem ofDict_reportDict (a : Analysis) (ts : String) (ecid : Option String)
    (hv : a.validation_error = Py.none) (hb : a.is_vehicle = true) :
    MLReport.ofDict (reportDict a ts ecid) =
      .ok ⟨a.severity, a.damage_parts, a.confidence, ts, Py.none, a.is_vehicle, Py.none⟩ := by
  cases ecid <;>
    simp [MLReport.ofDict, reportDict, hv, hb, pyFloat, List.lookup, pure, Except.pure, bind,
      Except.bind, Except.instMonad]

theorem ofDict_reportDict_set (a : Analysis) (ts : String) (ecid : Option String) (s : String)
    (hv : a.validation_error = Py.none) (hb : a.is_vehicle = true) :
    MLReport.ofDict (dictSet (reportDict a ts ecid) "mlReportCID" (Py.str s)) =
      .ok ⟨a.severity, a.damage_parts, a.confidence, ts, Py.str s, a.is_vehicle, Py.none⟩ := by
  cases ecid <;>
    simp [MLReport.ofDict, reportDict, dictSet, hv, hb, pyFloat, List.lookup, pure, Except.pure,
      bind, Except.bind, Except.instMonad]

/-- Field facts about every `MLReport` a route can build from a
gate-passing analysis. -/
theorem ofDict_report_ok {a : Analysis} {ts : String} {ecid : Option String} {u : Py}
    {m : MLReport}
    (hv : a.validation_error = Py.none) (hb : a.is_vehicle = true)
    (h : MLReport.ofDict (if pyTruthy u then dictSet (reportDict a ts ecid) "mlReportCID" u
                          else reportDict a ts ecid) = .ok m) :
    m.severity = a.severity ∧ m.damage_parts = a.damage_parts ∧ m.confidence = a.confidence ∧
    m.timestamp = ts ∧ m.is_vehicle = true ∧ m.validation_error = Py.none ∧
    (pyTruthy u = false → m.mlReportCID = Py.none) := by
  by_cases hut : pyTruthy u
  · rw [if_pos hut] at h
    cases u with
    | str s =>
      rw [ofDict_reportDict_set a ts ecid s hv hb] at h
      cases h
      simp [hb, hut]
    | none => simp [pyTruthy] at hut
    | bool b =>
      cases ecid <;>
        simp [MLReport.ofDict, reportDict, dictSet, hv, hb, pyFloat, List.lookup, pure,
          Except.pure, bind, Except.bind, Except.instMonad] at h
    | num q =>
      cases ecid <;>
        simp [MLReport.ofDict, reportDict, dictSet, hv, hb, pyFloat, List.lookup, pure,
          Except.pure, bind, Except.bind, Except.instMonad] at h
    | list xs =>
      cases ecid <;>
        simp [MLReport.ofDict, reportDict, dictSet, hv, hb, pyFloat, List.lookup, pure,
          Except.pure, bind, Except.bind, Except.instMonad] at h
    | dict kvs =>
      cases ecid <;>
        simp [MLReport.ofDict, reportDict, dictSet, hv, hb, pyFloat, List.lookup, pure,
          Except.pure, bind, Except.bind, Except.instMonad] at h
  · rw [if_neg hut] at h
    rw [ofDict_reportDict a ts ecid hv hb] at h
    cases h
    simp [hb]
theorem gate_false_fields {env : GeminiEnv} {decode : Decoder} {a : Analysis}
    (ha : analyze_damage_with_gemini env decode = a) (hgate : gateCheck a = false) :
    a.is_vehicle = true ∧ a.validation_error = Py.none := by
  simp only [gateCheck, Bool.or_eq_false_iff] at hgate
  obtain ⟨hveh', htr⟩ := hgate
  have hveh : a.is_vehicle = true := by simpa using hveh' 
  rcases analyze_verr ha with hn | ⟨s, hs, hne⟩ | hf
  · exact ⟨hveh, hn⟩
  · rw [hs] at htr
    simp [pyTruthy] at htr
    exact absurd htr hne
  · rw [hf] at hveh
    exact absurd hveh (by simp)

theorem route_ipfs_okModel {ienv : IpfsRouteEnv} {decode : Decoder} {cid : String} {m : MLReport}
    (h : analyze_from_ipfs ienv decode cid = .okModel m) :
    ∃ a, analyze_damage_with_gemini ienv.gemini decode = a ∧ a.is_vehicle = true ∧
      a.validation_error = Py.none ∧ m.is_vehicle = true ∧ m.validation_error = Py.none ∧
      m.severity = a.severity ∧ m.damage_parts = a.damage_parts ∧ m.confidence = a.confidence ∧
      m.timestamp = ienv.timestamp ∧
      (pyTruthy (upload_to_ipfs (.dict (reportDict a ienv.timestamp (some cid)))
          ienv.creds ienv.pin) = false → m.mlReportCID = Py.none) := by
  simp only [analyze_from_ipfs] at h
  rcases hdl : download_from_ipfs cid ienv.fetch with e | bytes <;> rw [hdl] at h
  · exact absurd h (by simp)
  · by_cases hgate : gateCheck (analyze_damage_with_gemini ienv.gemini decode)
    · rw [if_pos hgate] at h
      exact absurd h (by simp)
    · rw [if_neg hgate] at h
      obtain ⟨hb, hv⟩ := gate_false_fields rfl (Bool.not_eq_true _ ▸ hgate)
      rcases hof : MLReport.ofDict _ with e | m' <;> rw [hof] at h
      · exact absurd h (by simp)
      · have hm : m' = m := by injection h
        subst hm
        obtain ⟨h1, h2, h3, h4, h5, h6, h7⟩ := ofDict_report_ok hv hb hof
        exact ⟨_, rfl, hb, hv, h5, h6, h1, h2, h3, h4, h7⟩

theorem route_upload_okDict {uenv : UploadRouteEnv} {decode : Decoder} {d : List (String × Py)}
    (h : analyze_upload uenv decode = .okDict d) :
    ∃ a, analyze_damage_with_gemini uenv.gemini decode = a ∧ a.is_vehicle = true ∧
      a.validation_error = Py.none ∧
      d.lookup "is_vehicle" = some (.bool true) ∧
      d.lookup "validation_error" = some Py.none ∧
      d.lookup "evidenceCID" = Option.none ∧
      (pyTruthy (upload_to_ipfs (.dict (reportDict a uenv.timestamp Option.none))
          uenv.creds uenv.pin) = false → d.lookup "mlReportCID" = Option.none) := by
  simp only [analyze_upload] at h
  rcases hrd : uenv.readOk with e | u <;> rw [hrd] at h
  · exact absurd h (by simp)
  · by_cases hgate : gateCheck (analyze_damage_with_gemini uenv.gemini decode)
    · rw [if_pos hgate] at h
      exact absurd h (by simp)
    · rw [if_neg hgate] at h
      obtain ⟨hb, hv⟩ := gate_false_fields rfl (Bool.not_eq_true _ ▸ hgate)
      have hd : (if pyTruthy (upload_to_ipfs
            (.dict (reportDict (analyze_damage_with_gemini uenv.gemini decode)
              uenv.timestamp Option.none)) uenv.creds uenv.pin) then
          dictSet (reportDict (analyze_damage_with_gemini uenv.gemini decode)
            uenv.timestamp Option.none) "mlReportCID"
            (upload_to_ipfs (.dict (reportDict (analyze_damage_with_gemini uenv.gemini decode)
              uenv.timestamp Option.none)) uenv.creds uenv.pin)
        else reportDict (analyze_damage_with_gemini uenv.gemini decode)
          uenv.timestamp Option.none) = d := by
        injection h
      refine ⟨_, rfl, hb, hv, ?_⟩
      rw [← hd]
      by_cases hut : pyTruthy (upload_to_ipfs
          (.dict (reportDict (analyze_damage_with_gemini uenv.gemini decode)
            uenv.timestamp Option.none)) uenv.creds uenv.pin)
      · rw [if_pos hut]
        refine ⟨?_, ?_, ?_, fun hfalse => absurd hut (by simp [hfalse])⟩ <;>
          simp [reportDict, dictSet, List.lookup, hb, hv]
      · rw [if_neg hut]
        refine ⟨?_, ?_, ?_, fun _ => ?_⟩ <;>
          simp [reportDict, List.lookup, hb, hv]
/-- C2: whatever severity and confidence the remote model reports (the
decoded reply is unconstrained), the analysis result the backend returns
has severity in `[0,100]` and confidence in `[0,1]`. -/
theorem c2_reported_values_clamped (env : GeminiEnv) (decode : Decoder)
    (hci : env.clientInit = true) :
    0 ≤ (analyze_damage_with_gemini env decode).severity ∧
    (analyze_damage_with_gemini env decode).severity ≤ 100 ∧
    0 ≤ (analyze_damage_with_gemini env decode).confidence ∧
    (analyze_damage_with_gemini env decode).confidence ≤ 1 := by
  have herr : ∀ e : String, 0 ≤ (errorAnalysis e).severity ∧ (errorAnalysis e).severity ≤ 100 ∧
      0 ≤ (errorAnalysis e).confidence ∧ (errorAnalysis e).confidence ≤ 1 := by
    intro e
    refine ⟨by norm_num [errorAnalysis], by norm_num [errorAnalysis], ?_, ?_⟩ <;>
      simp only [errorAnalysis] <;> rw [mkRat_half] <;> norm_num
  cases hio : env.infer with
  | error e =>
    have hana : analyze_damage_with_gemini env decode = errorAnalysis e := by
      simp [analyze_damage_with_gemini, hci, hio]
    rw [hana]; exact herr e
  | ok text =>
    rcases hvr : validateResult (parsedReply decode text) with e | b
    · have hana : analyze_damage_with_gemini env decode = errorAnalysis e := by
        simp [analyze_damage_with_gemini, hci, hio, hvr]
      rw [hana]; exact herr e
    · have hana : analyze_damage_with_gemini env decode = b := by
        simp [analyze_damage_with_gemini, hci, hio, hvr]
      rw [hana]; exact (validateResult_ok hvr).1

theorem c2_witness :
    (⟨true, 0, 0, .ok "reply"⟩ : GeminiEnv).clientInit = true ∧
    analyze_damage_with_gemini ⟨true, 0, 0, .ok "reply"⟩
        (fun _ => some (.dict [("severity", .num 250), ("confidence", .num 7)])) =
      ⟨100, [], 1, true, Py.none⟩ ∧
    (analyze_damage_with_gemini ⟨true, 0, 0, .ok "reply"⟩
        (fun _ => some (.dict [("severity", .num 250), ("confidence", .num 7)]))).severity
      ≤ 100 ∧
    (analyze_damage_with_gemini ⟨true, 0, 0, .ok "reply"⟩
        (fun _ => some (.dict [("severity", .num 250), ("confidence", .num 7)]))).confidence
      ≤ 1 := by
  have h := c2_reported_values_clamped ⟨true, 0, 0, .ok "reply"⟩
    (fun _ => some (.dict [("severity", .num 250), ("confidence", .num 7)])) rfl
  exact ⟨rfl, by rfl, h.2.1, h.2.2.2⟩

/-- C1: when the vehicle gate rejects (the analysis reports `is_vehicle`
false), the analysis has severity 0, confidence 0 and empty damage parts,
and both routes answer 400 with the structured detail: the error label,
the explanatory message, severity 0 and `is_vehicle` false. -/
theorem c1_gate_rejection (ienv : IpfsRouteEnv) (uenv : UploadRouteEnv) (decode : Decoder)
    (cid : String) (bytes : List ℕ)
    (hg : uenv.gemini = ienv.gemini)
    (hfetch : ienv.fetch = .response 200 bytes) (hread : uenv.readOk = .ok ())
    (hrej : (analyze_damage_with_gemini ienv.gemini decode).is_vehicle = false) :
    (analyze_damage_with_gemini ienv.gemini decode).severity = 0 ∧
    (analyze_damage_with_gemini ienv.gemini decode).confidence = 0 ∧
    (analyze_damage_with_gemini ienv.gemini decode).damage_parts = [] ∧
    analyze_from_ipfs ienv decode cid =
      .badRequest ⟨"Invalid image: Not a vehicle",
        (analyze_damage_with_gemini ienv.gemini decode).validation_error, 0, false⟩ ∧
    analyze_upload uenv decode =
      .badRequest ⟨"Invalid image: Not a vehicle",
        (analyze_damage_with_gemini ienv.gemini decode).validation_error, 0, false⟩ := by
  obtain ⟨h1, h2, h3⟩ := analyze_reject rfl hrej
  have hgate : gateCheck (analyze_damage_with_gemini ienv.gemini decode) = true := by
    simp [gateCheck, hrej]
  have hgate' : gateCheck (analyze_damage_with_gemini uenv.gemini decode) = true := by
    rw [hg]; exact hgate
  refine ⟨h1, h2, h3, ?_, ?_⟩
  · rw [route_ipfs_bad hfetch hgate]
    rfl
  · rw [route_upload_bad hread hgate', hg]
    rfl

theorem c1_witness :
    (analyze_damage_with_gemini ⟨true, 0, 0, .ok "reply"⟩
      (fun _ => some (.dict [("is_vehicle", .bool false), ("description", .str "a cat")]))).is_vehicle
      = false ∧
    (analyze_damage_with_gemini ⟨true, 0, 0, .ok "reply"⟩
      (fun _ => some (.dict [("is_vehicle", .bool false), ("description", .str "a cat")]))).severity
      = 0 ∧
    analyze_from_ipfs
        ⟨.response 200 [], ⟨true, 0, 0, .ok "reply"⟩,
         ⟨Option.none, Option.none, Option.none⟩, .netError "x", "ts"⟩
        (fun _ => some (.dict [("is_vehicle", .bool false), ("description", .str "a cat")])) "cid" =
      .badRequest ⟨"Invalid image: Not a vehicle", .str "a cat", 0, false⟩ := by
  have h := c1_gate_rejection
    ⟨.response 200 [], ⟨true, 0, 0, .ok "reply"⟩,
     ⟨Option.none, Option.none, Option.none⟩, .netError "x", "ts"⟩
    ⟨.ok (), ⟨true, 0, 0, .ok "reply"⟩,
     ⟨Option.none, Option.none, Option.none⟩, .netError "x", "ts"⟩
    (fun _ => some (.dict [("is_vehicle", .bool false), ("description", .str "a cat")]))
    "cid" [] rfl rfl rfl (by rfl)
  exact ⟨by rfl, h.1, h.2.2.2.1⟩

/-- C10: every 200 of either route carries `is_vehicle = true` and a null
`validation_error`; and whenever the analysis has `is_vehicle` false or a
non-null `validation_error` (including the embedded-error result built
when inference throws), both routes answer the 400 labelled
"Invalid image: Not a vehicle" instead. -/
theorem c10_ok_responses_invariant (ienv : IpfsRouteEnv) (uenv : UploadRouteEnv)
    (decode : Decoder) (cid : String) (hg : uenv.gemini = ienv.gemini) :
    (∀ m, analyze_from_ipfs ienv decode cid = .okModel m →
      m.is_vehicle = true ∧ m.validation_error = Py.none) ∧
    (∀ d, analyze_upload uenv decode = .okDict d →
      d.lookup "is_vehicle" = some (.bool true) ∧
      d.lookup "validation_error" = some Py.none) ∧
    (((analyze_damage_with_gemini ienv.gemini decode).is_vehicle = false ∨
      (analyze_damage_with_gemini ienv.gemini decode).validation_error ≠ Py.none) →
      (∀ bytes, ienv.fetch = .response 200 bytes →
        analyze_from_ipfs ienv decode cid =
          .badRequest ⟨"Invalid image: Not a vehicle",
            (analyze_damage_with_gemini ienv.gemini decode).validation_error, 0, false⟩) ∧
      (uenv.readOk = .ok () →
        analyze_upload uenv decode =
          .badRequest ⟨"Invalid image: Not a vehicle",
            (analyze_damage_with_gemini ienv.gemini decode).validation_error, 0, false⟩)) := by
  refine ⟨?_, ?_, ?_⟩
  · intro m hm
    obtain ⟨a, ha, hb, hv, h5, h6, _⟩ := route_ipfs_okModel hm
    exact ⟨h5, h6⟩
  · intro d hd
    obtain ⟨a, ha, hb, hv, h4, h5, _⟩ := route_upload_okDict hd
    exact ⟨h4, h5⟩
  · intro hbad
    have hgate : gateCheck (analyze_damage_with_gemini ienv.gemini decode) = true := by
      rcases hbad with hf | hne
      · simp [gateCheck, hf]
      · rcases analyze_verr (rfl :
            analyze_damage_with_gemini ienv.gemini decode = _) with hn | ⟨s, hs, hneq⟩ | hf
        · exact absurd hn hne
        · simp [gateCheck, pyTruthy, hs, hneq]
        · simp [gateCheck, hf]
    have hgate' : gateCheck (analyze_damage_with_gemini uenv.gemini decode) = true := by
      rw [hg]; exact hgate
    constructor
    · intro bytes hfetch
      rw [route_ipfs_bad hfetch hgate]
      rfl
    · intro hread
      rw [route_upload_bad hread hgate', hg]
      rfl

theorem c10_witness :
    analyze_from_ipfs
        ⟨.response 200 [], ⟨false, 50, mkRat 8 10, .ok "x"⟩,
         ⟨Option.none, Option.none, Option.none⟩, .netError "x", "ts"⟩
        (fun _ => Option.none) "cid" =
      .okModel ⟨50, [.str "front_bumper", .str "headlight", .str "hood"], mkRat 8 10, "ts",
        Py.none, true, Py.none⟩ ∧
    (⟨50, [.str "front_bumper", .str "headlight", .str "hood"], mkRat 8 10, "ts",
        Py.none, true, Py.none⟩ : MLReport).is_vehicle = true ∧
    (⟨50, [.str "front_bumper", .str "headlight", .str "hood"], mkRat 8 10, "ts",
        Py.none, true, Py.none⟩ : MLReport).validation_error = Py.none := by
  have h := (c10_ok_responses_invariant
    ⟨.response 200 [], ⟨false, 50, mkRat 8 10, .ok "x"⟩,
     ⟨Option.none, Option.none, Option.none⟩, .netError "x", "ts"⟩
    ⟨.ok (), ⟨false, 50, mkRat 8 10, .ok "x"⟩,
     ⟨Option.none, Option.none, Option.none⟩, .netError "x", "ts"⟩
    (fun _ => Option.none) "cid" rfl).1
    ⟨50, [.str "front_bumper", .str "headlight", .str "hood"], mkRat 8 10, "ts",
      Py.none, true, Py.none⟩ (by rfl)
  exact ⟨by rfl, h.1, h.2⟩
/-- C4: the publisher returns `None` instead of raising on every failure
mode (missing credentials, network error, non-200 status, unparsable
body), and a valid-vehicle request still answers 200 with no
`mlReportCID` value set. -/
theorem c4_publish_failure_non_fatal (data : Py) (creds : PinataCreds) (pin : PinOutcome)
    (ienv : IpfsRouteEnv) (uenv : UploadRouteEnv) (decode : Decoder) (cid : String)
    (bytes : List ℕ) :
    (¬ (optTruthy creds.jwt || (optTruthy creds.apiKey && optTruthy creds.secret)) = true →
      upload_to_ipfs data creds pin = Py.none) ∧
    (∀ m, pin = .netError m → upload_to_ipfs data creds pin = Py.none) ∧
    (∀ s b, pin = .response s b → s ≠ 200 → upload_to_ipfs data creds pin = Py.none) ∧
    (pin = .response 200 Option.none → upload_to_ipfs data creds pin = Py.none) ∧
    ((analyze_damage_with_gemini ienv.gemini decode).is_vehicle = true →
     (analyze_damage_with_gemini ienv.gemini decode).validation_error = Py.none →
     ienv.fetch = .response 200 bytes →
     (∀ d, upload_to_ipfs d ienv.creds ienv.pin = Py.none) →
      analyze_from_ipfs ienv decode cid =
        .okModel ⟨(analyze_damage_with_gemini ienv.gemini decode).severity,
                  (analyze_damage_with_gemini ienv.gemini decode).damage_parts,
                  (analyze_damage_with_gemini ienv.gemini decode).confidence,
                  ienv.timestamp, Py.none, true, Py.none⟩) ∧
    ((analyze_damage_with_gemini uenv.gemini decode).is_vehicle = true →
     (analyze_damage_with_gemini uenv.gemini decode).validation_error = Py.none →
     uenv.readOk = .ok () →
     (∀ d, upload_to_ipfs d uenv.creds uenv.pin = Py.none) →
      analyze_upload uenv decode =
        .okDict (reportDict (analyze_damage_with_gemini uenv.gemini decode)
          uenv.timestamp Option.none) ∧
      (reportDict (analyze_damage_with_gemini uenv.gemini decode)
          uenv.timestamp Option.none).lookup "mlReportCID" = Option.none) := by
  refine ⟨?_, ?_, ?_, ?_, ?_, ?_⟩
  · intro hcreds
    simp [upload_to_ipfs, hcreds]
  · rintro m rfl
    simp [upload_to_ipfs]
  · rintro s b rfl hs
    simp [upload_to_ipfs, hs]
  · rintro rfl
    simp [upload_to_ipfs]
  · intro hb hv hfetch hup
    have hgate : gateCheck (analyze_damage_with_gemini ienv.gemini decode) = false := by
      simp [gateCheck, hb, hv, pyTruthy]
    simp only [analyze_from_ipfs, download_from_ipfs, hfetch, hgate, Bool.false_eq_true,
      if_false, hup, pyTruthy, if_true]
    rw [ofDict_reportDict _ _ _ hv hb]
    simp [hb]
  · intro hb hv hread hup
    have hgate : gateCheck (analyze_damage_with_gemini uenv.gemini decode) = false := by
      simp [gateCheck, hb, hv, pyTruthy]
    constructor
    · simp only [analyze_upload, hread, hgate, Bool.false_eq_true, if_false, hup, pyTruthy,
        if_true]
    · simp [reportDict, List.lookup]

theorem c4_witness :
    upload_to_ipfs (Py.dict []) ⟨Option.none, Option.none, Option.none⟩ (.netError "down")
      = Py.none ∧
    analyze_from_ipfs
        ⟨.response 200 [], ⟨false, 50, mkRat 8 10, .ok "x"⟩,
         ⟨Option.none, Option.none, Option.none⟩, .netError "down", "ts"⟩
        (fun _ => Option.none) "cid" =
      .okModel ⟨50, [.str "front_bumper", .str "headlight", .str "hood"], mkRat 8 10, "ts",
        Py.none, true, Py.none⟩ := by
  have h := c4_publish_failure_non_fatal (Py.dict [])
    ⟨Option.none, Option.none, Option.none⟩ (.netError "down")
    ⟨.response 200 [], ⟨false, 50, mkRat 8 10, .ok "x"⟩,
     ⟨Option.none, Option.none, Option.none⟩, .netError "down", "ts"⟩
    ⟨.ok (), ⟨false, 50, mkRat 8 10, .ok "x"⟩,
     ⟨Option.none, Option.none, Option.none⟩, .netError "down", "ts"⟩
    (fun _ => Option.none) "cid" []
  exact ⟨h.2.1 "down" rfl, h.2.2.2.2.1 (by rfl) (by rfl) rfl (fun d => by rfl)⟩

/-- C9: the reply parser decodes the fence-extracted text, and when JSON
decoding fails it falls back to the regex dict: severity is the first
`"severity"\s*:\s*(\d+)` match or 50, confidence is 0.7, and
`damage_parts` is `["unknown"]` exactly when that severity is positive. -/
theorem c9_fence_and_regex_fallback (env : GeminiEnv) (decode : Decoder) (text : String)
    (hci : env.clientInit = true) (hio : env.infer = .ok text)
    (hdec : decode (extractFenced text) = Option.none) :
    parsedReply decode text =
      Py.dict [("is_vehicle", .bool (!(strContains (pyLower (extractFenced text)) "is_vehicle")
                  || strContains (pyLower (extractFenced text)) "true")),
               ("severity", .num (qnat ((searchSev (extractFenced text).data).getD 50))),
               ("damage_parts", .list (if 0 < (searchSev (extractFenced text).data).getD 50
                  then [.str "unknown"] else [])),
               ("confidence", .num (mkRat 7 10)),
               ("description", .str ((extractFenced text).take 100))] ∧
    analyze_damage_with_gemini env decode =
      (match validateResult (jsonFallback (extractFenced text)) with
       | .ok a => a
       | .error e => errorAnalysis e) := by
  have hp : parsedReply decode text = jsonFallback (extractFenced text) := by
    simp [parsedReply, hdec]
  constructor
  · rw [hp]
    rfl
  · simp [analyze_damage_with_gemini, hci, hio, hp]

theorem c9_witness :
    (fun _ => Option.none : Decoder)
        (extractFenced "```json\n\x7b \"severity\": 42, oops\n```") = Option.none ∧
    analyze_damage_with_gemini ⟨true, 0, 0, .ok "```json\n\x7b \"severity\": 42, oops\n```"⟩
        (fun _ => Option.none) =
      ⟨42, [.str "unknown"], mkRat 7 10, true, Py.none⟩ ∧
    searchSev (extractFenced "```json\n\x7b \"severity\": 42, oops\n```").data = some 42 := by
  have h := c9_fence_and_regex_fallback ⟨true, 0, 0, .ok "```json\n\x7b \"severity\": 42, oops\n```"⟩
    (fun _ => Option.none) "```json\n\x7b \"severity\": 42, oops\n```" rfl rfl rfl
  refine ⟨rfl, ?_, by rfl⟩
  rw [h.2]
  rfl

/-- C3 counterexample: a concrete successful `/analyze` request whose 200
response body (the `MLReport` model) contains no `evidenceCID` key at
all, refuting the claim that every such response includes it. -/
theorem c3_counterexample :
    (analyze_from_ipfs
        ⟨.response 200 [], ⟨false, 50, mkRat 8 10, .ok "x"⟩,
         ⟨Option.none, Option.none, Option.none⟩, .netError "down", "ts"⟩
        (fun _ => Option.none) "QmTest").body200.isSome = true ∧
    ((analyze_from_ipfs
        ⟨.response 200 [], ⟨false, 50, mkRat 8 10, .ok "x"⟩,
         ⟨Option.none, Option.none, Option.none⟩, .netError "down", "ts"⟩
        (fun _ => Option.none) "QmTest").body200.getD []).lookup "evidenceCID"
      = Option.none := by
  exact ⟨rfl, rfl⟩

/-- C3 (amended): the report record the `/analyze` route constructs (and
hands to the publisher) carries `evidenceCID` equal to the request's
`ipfsCid`, but the HTTP 200 body — validated through the `MLReport`
response model, which has no such field — omits it; no `/analyze/upload`
200 body contains `evidenceCID` either. -/
theorem c3_amended (ienv : IpfsRouteEnv) (uenv : UploadRouteEnv) (decode : Decoder)
    (cid : String) :
    (∀ m, analyze_from_ipfs ienv decode cid = .okModel m →
      ("evidenceCID", Py.str cid) ∈
        reportDict (analyze_damage_with_gemini ienv.gemini decode) ienv.timestamp (some cid) ∧
      (MLReport.body m).lookup "evidenceCID" = Option.none) ∧
    (∀ d, analyze_upload uenv decode = .okDict d →
      d.lookup "evidenceCID" = Option.none) := by
  constructor
  · intro m hm
    constructor
    · simp [reportDict]
    · simp [MLReport.body, List.lookup]
  · intro d hd
    obtain ⟨a, ha, hb, hv, h4, h5, h6, h7⟩ := route_upload_okDict hd
    exact h6

theorem c3_amended_witness :
    analyze_from_ipfs
        ⟨.response 200 [], ⟨false, 50, mkRat 8 10, .ok "x"⟩,
         ⟨Option.none, Option.none, Option.none⟩, .netError "down", "ts"⟩
        (fun _ => Option.none) "QmTest" =
      .okModel ⟨50, [.str "front_bumper", .str "headlight", .str "hood"], mkRat 8 10, "ts",
        Py.none, true, Py.none⟩ ∧
    ("evidenceCID", Py.str "QmTest") ∈
      reportDict (analyze_damage_with_gemini ⟨false, 50, mkRat 8 10, .ok "x"⟩
        (fun _ => Option.none)) "ts" (some "QmTest") ∧
    (MLReport.body ⟨50, [.str "front_bumper", .str "headlight", .str "hood"], mkRat 8 10, "ts",
        Py.none, true, Py.none⟩).lookup "evidenceCID" = Option.none := by
  have h := (c3_amended
    ⟨.response 200 [], ⟨false, 50, mkRat 8 10, .ok "x"⟩,
     ⟨Option.none, Option.none, Option.none⟩, .netError "down", "ts"⟩
    ⟨.ok (), ⟨false, 50, mkRat 8 10, .ok "x"⟩,
     ⟨Option.none, Option.none, Option.none⟩, .netError "down", "ts"⟩
    (fun _ => Option.none) "QmTest").1
    ⟨50, [.str "front_bumper", .str "headlight", .str "hood"], mkRat 8 10, "ts",
      Py.none, true, Py.none⟩ (by rfl)
  exact ⟨by rfl, h.1, h.2⟩

/-- The head of `rest` (if any) fails the predicate. -/
def goodStop (p : Char → Bool) (rest : List Char) : Prop :=
  ∀ c t, rest = c :: t → p c = false

theorem takeWhile_append_of {p : Char → Bool} {ds rest : List Char}
    (hds : ∀ c ∈ ds, p c = true) (hrest : goodStop p rest) :
    (ds ++ rest).takeWhile p = ds ∧ (ds ++ rest).dropWhile p = rest := by
  induction ds with
  | nil =>
    cases rest with
    | nil => simp
    | cons c t =>
      simp only [List.nil_append, List.takeWhile, List.dropWhile]
      rw [hrest c t rfl]
      simp
  | cons d ds ih =>
    have hd : p d = true := hds d (by simp)
    have ih' := ih (fun c hc => hds c (by simp [hc]))
    simp only [List.cons_append, List.takeWhile, List.dropWhile, hd]
    simp [ih'.1, ih'.2]

theorem natOfDigits_foldl_shift (l : List Char) (a : ℕ) :
    l.foldl (fun acc c => 10 * acc + (c.toNat - 48)) a =
      a * 10 ^ l.length + natOfDigits l := by
  induction l generalizing a with
  | nil => simp [natOfDigits]
  | cons c t ih =>
    simp only [List.foldl, natOfDigits, List.length_cons]
    rw [ih (10 * a + (c.toNat - 48)), ih (10 * 0 + (c.toNat - 48))]
    ring

theorem natOfDigits_append (l1 l2 : List Char) :
    natOfDigits (l1 ++ l2) = natOfDigits l1 * 10 ^ l2.length + natOfDigits l2 := by
  rw [natOfDigits, List.foldl_append, natOfDigits_foldl_shift]
  rfl

theorem natOfDigits_replicate_zero (k : ℕ) (ds : List Char) :
    natOfDigits (List.replicate k '0' ++ ds) = natOfDigits ds := by
  rw [natOfDigits_append]
  have hz : natOfDigits (List.replicate k '0') = 0 := by
    induction k with
    | zero => rfl
    | succ n ih =>
      rw [List.replicate_succ, natOfDigits, List.foldl]
      have h0 : (10 * 0 + ('0'.toNat - 48)) = 0 := by decide
      rw [h0, natOfDigits_foldl_shift]
      simp [ih]
  simp [hz]

theorem char_digit_toNat {n : ℕ} (h : n < 10) :
    (Char.ofNat (48 + n)).toNat = 48 + n ∧ (Char.ofNat (48 + n)).isDigit = true := by
  interval_cases n <;> exact ⟨rfl, rfl⟩

theorem natToDigitsRev_spec : ∀ fuel n, n ≤ fuel →
    natOfDigits (natToDigitsRev fuel n).reverse = n ∧
    (∀ c ∈ natToDigitsRev fuel n, c.isDigit = true) := by
  intro fuel
  induction fuel with
  | zero =>
    intro n hn
    have : n = 0 := Nat.le_zero.mp hn
    subst this
    exact ⟨rfl, by simp [natToDigitsRev]⟩
  | succ f ih =>
    intro n hn
    by_cases h0 : n = 0
    · subst h0
      exact ⟨rfl, by simp [natToDigitsRev]⟩
    · have hrec := ih (n / 10) (by omega)
      have hd := char_digit_toNat (Nat.mod_lt n (by norm_num) : n % 10 < 10)
      constructor
      · simp only [natToDigitsRev, h0, if_false, List.reverse_cons]
        rw [natOfDigits_append, hrec.1]
        simp [natOfDigits, hd.1]
        omega
      · intro c hc
        simp only [natToDigitsRev, h0, if_false, List.mem_cons] at hc
        rcases hc with rfl | hc
        · exact hd.2
        · exact hrec.2 c hc

theorem natToChars_spec (n : ℕ) :
    natOfDigits (natToChars n) = n ∧ natToChars n ≠ [] ∧
    (∀ c ∈ natToChars n, c.isDigit = true) := by
  by_cases h0 : n = 0
  · subst h0
    refine ⟨rfl, by simp [natToChars], ?_⟩
    intro c hc
    simp [natToChars] at hc
    subst hc
    rfl
  · have h := natToDigitsRev_spec n n le_rfl
    refine ⟨by simp [natToChars, h0, h.1], ?_, ?_⟩
    · simp only [natToChars, h0, if_false, ne_eq, List.reverse_eq_nil_iff]
      intro hnil
      have := h.1
      rw [hnil] at this
      simp [natOfDigits] at this
      exact h0 this.symm
    · intro c hc
      simp only [natToChars, h0, if_false, List.mem_reverse] at hc
      exact h.2 c hc

theorem skipWs_replicate_space (n : ℕ) (l : List Char) :
    skipWs (List.replicate n ' ' ++ l) = skipWs l := by
  induction n with
  | zero => simp
  | succ k ih =>
    rw [List.replicate_succ]
    show skipWs (' ' :: (List.replicate k ' ' ++ l)) = skipWs l
    rw [show skipWs (' ' :: (List.replicate k ' ' ++ l))
        = skipWs (List.replicate k ' ' ++ l) from rfl]
    exact ih

theorem skipWs_pad (ind : ℕ) (l : List Char) : skipWs (pad ind ++ l) = skipWs l :=
  skipWs_replicate_space (2 * ind) l

theorem skipWs_nl (l : List Char) : skipWs ('\n' :: l) = skipWs l := rfl

theorem skipWs_not_ws {c : Char} (l : List Char) (h : jsonWs c = false) :
    skipWs (c :: l) = c :: l := by
  simp [skipWs, List.dropWhile, h]

theorem padDigits_digits (q : ℚ) : ∀ c ∈ padDigits q, c.isDigit = true := by
  intro c hc
  simp only [padDigits] at hc
  split at hc
  · rcases List.mem_append.mp hc with h | h
    · rw [List.eq_of_mem_replicate h]; rfl
    · exact (natToChars_spec _).2.2 c h
  · exact (natToChars_spec _).2.2 c hc

theorem padDigits_len (q : ℚ) : decExp q < (padDigits q).length := by
  simp only [padDigits]
  split
  · next h =>
    rw [List.length_append, List.length_replicate]
    have hne := (natToChars_spec (mNum q).natAbs).2.1
    have : 0 < (natToChars (mNum q).natAbs).length := List.length_pos.mpr hne
    omega
  · next h => omega

theorem padDigits_val (q : ℚ) : natOfDigits (padDigits q) = (mNum q).natAbs := by
  simp only [padDigits]
  split
  · rw [natOfDigits_replicate_zero]
    exact (natToChars_spec _).1
  · exact (natToChars_spec _).1

theorem padDigits_ne (q : ℚ) : padDigits q ≠ [] := by
  have := padDigits_len q
  intro h
  rw [h] at this
  simp at this

theorem mNum_spec {q : ℚ} (hwf : pyWfNum q = true) :
    q * 10 ^ decExp q = ((mNum q : ℤ) : ℚ) := by
  have hden : (qmul q (qtenPow (decExp q))).den = 1 := by
    simpa [pyWfNum] using hwf
  have h1 : ((qmul q (qtenPow (decExp q))).num : ℚ) = qmul q (qtenPow (decExp q)) :=
    Rat.coe_int_num_of_den_eq_one hden
  rw [mNum, h1, qmul_eq, qtenPow_eq]

/-- What may legally follow a printed value: nothing, a comma, or the
newline that precedes a closing bracket. -/
def goodAfter : List Char → Prop
  | [] => True
  | c :: _ => c = ',' ∨ c = '\n'

theorem isDigit_ne {c : Char} (h : c.isDigit = true) :
    c ≠ '-' ∧ c ≠ '.' ∧ c ≠ 'n' ∧ c ≠ 't' ∧ c ≠ 'f' ∧ c ≠ '"' ∧ c ≠ '[' ∧ c ≠ '\x7b' ∧
    c ≠ ']' ∧ c ≠ '\x7d' ∧ jsonWs c = false := by
  refine ⟨?_, ?_, ?_, ?_, ?_, ?_, ?_, ?_, ?_, ?_, ?_⟩
  · intro heq; rw [heq] at h; exact absurd h (by decide)
  · intro heq; rw [heq] at h; exact absurd h (by decide)
  · intro heq; rw [heq] at h; exact absurd h (by decide)
  · intro heq; rw [heq] at h; exact absurd h (by decide)
  · intro heq; rw [heq] at h; exact absurd h (by decide)
  · intro heq; rw [heq] at h; exact absurd h (by decide)
  · intro heq; rw [heq] at h; exact absurd h (by decide)
  · intro heq; rw [heq] at h; exact absurd h (by decide)
  · intro heq; rw [heq] at h; exact absurd h (by decide)
  · intro heq; rw [heq] at h; exact absurd h (by decide)
  · by_contra hws
    simp only [Bool.not_eq_false, jsonWs, Bool.or_eq_true, decide_eq_true_eq] at hws
    rcases hws with ((rfl | rfl) | rfl) | rfl <;> exact absurd h (by decide)

theorem goodAfter_stop_digit {rest : List Char} (h : goodAfter rest) :
    goodStop (·.isDigit) rest := by
  intro c t hrt
  subst hrt
  have h' : c = ',' ∨ c = '\n' := h
  rcases h' with rfl | rfl <;> decide

theorem goodAfter_head_ne_dot {c : Char} {t : List Char} (h : goodAfter (c :: t)) :
    c ≠ '.' := by
  have h' : c = ',' ∨ c = '\n' := h
  rcases h' with rfl | rfl <;> decide

theorem jparseNumCore_digits {ds rest : List Char} (hds : ∀ c ∈ ds, c.isDigit = true)
    (hne : ds ≠ []) (hrest : goodAfter rest) :
    jparseNumCore (ds ++ rest) = some (qnat (natOfDigits ds), rest) := by
  obtain ⟨ht, hd⟩ := takeWhile_append_of hds (goodAfter_stop_digit hrest)
  have hempty : ds.isEmpty = false := by
    cases ds
    · exact absurd rfl hne
    · rfl
  simp only [jparseNumCore, ht, hd, hempty, Bool.false_eq_true, if_false]
  cases rest with
  | nil => rfl
  | cons c t =>
    simp only [if_neg (goodAfter_head_ne_dot hrest)]

theorem jparseNumCore_frac {intP fracP rest : List Char}
    (hi : ∀ c ∈ intP, c.isDigit = true) (hine : intP ≠ [])
    (hf : ∀ c ∈ fracP, c.isDigit = true) (hfne : fracP ≠ [])
    (hrest : goodAfter rest) :
    jparseNumCore (intP ++ '.' :: (fracP ++ rest)) =
      some (qadd (qnat (natOfDigits intP))
        (qdivNat (qnat (natOfDigits fracP)) (10 ^ fracP.length)), rest) := by
  have hstop : goodStop (·.isDigit) ('.' :: (fracP ++ rest)) := by
    intro c t hrt
    cases hrt
    decide
  obtain ⟨ht, hd⟩ := takeWhile_append_of hi hstop
  obtain ⟨ht2, hd2⟩ := takeWhile_append_of hf (goodAfter_stop_digit hrest)
  have hiempty : intP.isEmpty = false := by
    cases intP
    · exact absurd rfl hine
    · rfl
  have hfempty : fracP.isEmpty = false := by
    cases fracP
    · exact absurd rfl hfne
    · rfl
  simp only [jparseNumCore, ht, hd, hiempty, Bool.false_eq_true, if_false, if_pos rfl, ht2, hd2,
    hfempty]
  simp

theorem jparseNum_renderNum {q : ℚ} {rest : List Char} (hwf : pyWfNum q = true)
    (hrest : goodAfter rest) :
    jparseNum (renderNum q ++ rest) = some (q, rest) := by
  have hds := padDigits_digits q
  have hne := padDigits_ne q
  have hlen := padDigits_len q
  have hval := padDigits_val q
  have hm := mNum_spec hwf
  have hpow : (0 : ℚ) < 10 ^ decExp q := by positivity
  have hNq : (((mNum q).natAbs : ℕ) : ℚ) = |q| * 10 ^ decExp q := by
    rw [Int.cast_natAbs, Int.cast_abs, ← hm, abs_mul, abs_of_pos hpow]
  by_cases hk : decExp q = 0
  · -- no decimal point
    have hcore := jparseNumCore_digits hds hne hrest
    rw [hval] at hcore
    have hv : (((mNum q).natAbs : ℕ) : ℚ) = |q| := by
      rw [hNq, hk]; ring
    by_cases hneg : q < 0
    · have hrender : renderNum q ++ rest = '-' :: (padDigits q ++ rest) := by
        rw [renderNum, if_pos hneg, if_pos hk]
        rfl
      rw [hrender, jparseNum, if_pos rfl, hcore, Option.map_some']
      congr 2
      rw [qneg_eq, qnat_eq, hv, abs_of_neg hneg, neg_neg]
    · obtain ⟨c0, t0, hct⟩ := List.exists_cons_of_ne_nil hne
      have hc0 : c0.isDigit = true := hds c0 (by rw [hct]; simp)
      have hrender : renderNum q ++ rest = c0 :: (t0 ++ rest) := by
        rw [renderNum, if_neg hneg, if_pos hk, hct]
        rfl
      rw [hrender, jparseNum, if_neg (isDigit_ne hc0).1,
        show c0 :: (t0 ++ rest) = (c0 :: t0) ++ rest from rfl, ← hct, hcore]
      congr 2
      rw [qnat_eq, hv, abs_of_nonneg (not_lt.mp hneg)]
  · -- decimal point present
    obtain ⟨intP, hintP⟩ :
        ∃ i, (padDigits q).take ((padDigits q).length - decExp q) = i := ⟨_, rfl⟩
    obtain ⟨fracP, hfracP⟩ :
        ∃ f, (padDigits q).drop ((padDigits q).length - decExp q) = f := ⟨_, rfl⟩
    have hsplit : intP ++ fracP = padDigits q := by
      rw [← hintP, ← hfracP]; exact List.take_append_drop _ _
    have hfracLen : fracP.length = decExp q := by
      rw [← hfracP, List.length_drop]
      omega
    have hintLen : intP.length = (padDigits q).length - decExp q := by
      rw [← hintP, List.length_take]
      omega
    have hi : ∀ c ∈ intP, c.isDigit = true := fun c hc =>
      hds c (by rw [← hsplit]; exact List.mem_append_left _ hc)
    have hf : ∀ c ∈ fracP, c.isDigit = true := fun c hc =>
      hds c (by rw [← hsplit]; exact List.mem_append_right _ hc)
    have hine : intP ≠ [] := by
      intro h
      rw [h] at hintLen
      simp at hintLen
      omega
    have hfne : fracP ≠ [] := by
      intro h
      rw [h] at hfracLen
      simp at hfracLen
      omega
    have hcore := jparseNumCore_frac hi hine hf hfne hrest
    have hdecomp : natOfDigits intP * 10 ^ decExp q + natOfDigits fracP = (mNum q).natAbs := by
      rw [← hval, ← hsplit, natOfDigits_append, hfracLen]
    have hvq : qadd (qnat (natOfDigits intP))
        (qdivNat (qnat (natOfDigits fracP)) (10 ^ fracP.length)) = |q| := by
      rw [qadd_eq, qnat_eq, qnat_eq, qdivNat_eq, hfracLen]
      have hcast : ((natOfDigits intP : ℚ) * 10 ^ decExp q + (natOfDigits fracP : ℚ))
          = |q| * 10 ^ decExp q := by
        rw [← hNq, ← hdecomp]
        push_cast
        ring
      have h10 : ((10 ^ decExp q : ℕ) : ℚ) = 10 ^ decExp q := by push_cast; ring
      rw [h10]
      field_simp
      linarith [hcast]
    by_cases hneg : q < 0
    · have hrender : renderNum q ++ rest = '-' :: (intP ++ '.' :: (fracP ++ rest)) := by
        rw [renderNum, if_pos hneg, if_neg hk, hintP, hfracP]
        simp
      rw [hrender, jparseNum, if_pos rfl, hcore, Option.map_some']
      congr 2
      rw [qneg_eq, hvq, abs_of_neg hneg, neg_neg]
    · obtain ⟨c0, t0, hct⟩ := List.exists_cons_of_ne_nil hine
      have hc0 : c0.isDigit = true := hi c0 (by rw [hct]; simp)
      have hrender : renderNum q ++ rest = c0 :: (t0 ++ '.' :: (fracP ++ rest)) := by
        rw [renderNum, if_neg hneg, if_neg hk, hintP, hfracP, hct]
        simp
      rw [hrender, jparseNum, if_neg (isDigit_ne hc0).1,
        show c0 :: (t0 ++ '.' :: (fracP ++ rest)) = (c0 :: t0) ++ '.' :: (fracP ++ rest)
          from rfl, ← hct, hcore]
      congr 2
      rw [hvq, abs_of_nonneg (not_lt.mp hneg)]

theorem hexVal_hexDigit {d : ℕ} (h : d < 16) : hexVal (hexDigit d) = some d := by
  interval_cases d <;> rfl

theorem hexval4_combine {k : ℕ} (hk : k < 65536) :
    ((k / 4096 % 16 * 16 + k / 256 % 16) * 16 + k / 16 % 16) * 16 + k % 16 = k := by
  omega

theorem char_range (c : Char) : c.toNat < 55296 ∨ (57344 ≤ c.toNat ∧ c.toNat < 1114112) := by
  rcases c.valid with h | ⟨h1, h2⟩
  · exact Or.inl h
  · exact Or.inr ⟨by exact h1, h2⟩

set_option maxHeartbeats 1000000 in
theorem escapeChar_length_pos (c : Char) : 1 ≤ (escapeChar c).length := by
  rw [escapeChar]
  split_ifs <;> simp [hex4]

theorem escBody_len_ge (chars : List Char) : chars.length ≤ (escBody chars).length := by
  induction chars with
  | nil => simp [escBody]
  | cons c cs ih =>
    have h : escBody (c :: cs) = escapeChar c ++ escBody cs := by simp [escBody]
    rw [h, List.length_append, List.length_cons]
    have := escapeChar_length_pos c
    omega

theorem goStr_hex_step (f : ℕ) (n : ℕ) (hn : n < 65536)
    (hnotsur : ¬(55296 ≤ n ∧ n < 57344)) (tail : List Char) :
    goStr (f + 1) ('\\' :: 'u' :: (hex4 n ++ tail)) =
      (goStr f tail).map (fun p => (Char.ofNat n :: p.1, p.2)) := by
  have e1 := hexVal_hexDigit (d := n / 4096 % 16) (Nat.mod_lt _ (by norm_num))
  have e2 := hexVal_hexDigit (d := n / 256 % 16) (Nat.mod_lt _ (by norm_num))
  have e3 := hexVal_hexDigit (d := n / 16 % 16) (Nat.mod_lt _ (by norm_num))
  have e4 := hexVal_hexDigit (d := n % 16) (Nat.mod_lt _ (by norm_num))
  simp only [goStr, hex4, List.cons_append, List.nil_append, reduceIte]
  simp only [e1, e2, e3, e4, hexval4_combine hn]
  rw [if_neg (by omega : ¬(55296 ≤ n ∧ n < 56320)), if_neg (by omega : ¬(56320 ≤ n ∧ n < 57344)),
    if_neg (show ¬('\\' : Char) = '"' by decide)]

theorem goStr_surrogate_step (f : ℕ) (v : ℕ) (hv : v < 1048576) (tail : List Char) :
    goStr (f + 1) ('\\' :: 'u' :: (hex4 (55296 + v / 1024) ++
        ('\\' :: 'u' :: (hex4 (56320 + v % 1024) ++ tail)))) =
      (goStr f tail).map (fun p => (Char.ofNat (v + 65536) :: p.1, p.2)) := by
  have hhi : 55296 + v / 1024 < 65536 := by omega
  have hlo : 56320 + v % 1024 < 65536 := by omega
  have e1 := hexVal_hexDigit (d := (55296 + v / 1024) / 4096 % 16) (Nat.mod_lt _ (by norm_num))
  have e2 := hexVal_hexDigit (d := (55296 + v / 1024) / 256 % 16) (Nat.mod_lt _ (by norm_num))
  have e3 := hexVal_hexDigit (d := (55296 + v / 1024) / 16 % 16) (Nat.mod_lt _ (by norm_num))
  have e4 := hexVal_hexDigit (d := (55296 + v / 1024) % 16) (Nat.mod_lt _ (by norm_num))
  have g1 := hexVal_hexDigit (d := (56320 + v % 1024) / 4096 % 16) (Nat.mod_lt _ (by norm_num))
  have g2 := hexVal_hexDigit (d := (56320 + v % 1024) / 256 % 16) (Nat.mod_lt _ (by norm_num))
  have g3 := hexVal_hexDigit (d := (56320 + v % 1024) / 16 % 16) (Nat.mod_lt _ (by norm_num))
  have g4 := hexVal_hexDigit (d := (56320 + v % 1024) % 16) (Nat.mod_lt _ (by norm_num))
  simp only [goStr, hex4, List.cons_append, List.nil_append, reduceIte]
  simp only [e1, e2, e3, e4, g1, g2, g3, g4, hexval4_combine hhi, hexval4_combine hlo]
  rw [if_pos (by omega : 55296 ≤ 55296 + v / 1024 ∧ 55296 + v / 1024 < 56320),
    if_pos (by omega : 56320 ≤ 56320 + v % 1024 ∧ 56320 + v % 1024 < 57344)]
  have hcomb : (55296 + v / 1024 - 55296) * 1024 + (56320 + v % 1024 - 56320) + 65536
      = v + 65536 := by omega
  rw [hcomb, if_neg (show ¬('\\' : Char) = '"' by decide)]
theorem goStr_backslash_step (f : ℕ) (e ch : Char) (tail : List Char)
    (hu : e ≠ 'u')
    (hchain : (if e = '"' then some '"' else if e = '\\' then some '\\'
       else if e = '/' then some '/' else if e = 'n' then some '\n'
       else if e = 't' then some '\t' else if e = 'r' then some '\r'
       else if e = 'b' then some '\x08' else if e = 'f' then some '\x0c'
       else Option.none) = some ch) :
    goStr (f + 1) ('\\' :: e :: tail) = (goStr f tail).map (fun p => (ch :: p.1, p.2)) := by
  simp only [goStr, reduceIte]
  rw [if_neg hu, hchain, if_neg (show ¬('\\' : Char) = '"' by decide)]

theorem goStr_plain_step (f : ℕ) (c : Char) (tail : List Char)
    (h1 : c ≠ '"') (h2 : c ≠ '\\') :
    goStr (f + 1) (c :: tail) = (goStr f tail).map (fun p => (c :: p.1, p.2)) := by
  simp only [goStr]
  rw [if_neg h1, if_neg h2]

theorem goStr_escBody : ∀ (chars : List Char) (fuel : ℕ) (rest : List Char),
    chars.length + 1 ≤ fuel →
    goStr fuel (escBody chars ++ '"' :: rest) = some (chars, rest) := by
  intro chars
  induction chars with
  | nil =>
    intro fuel rest hfuel
    cases fuel with
    | zero => omega
    | succ f =>
      rw [show escBody [] = [] from rfl, List.nil_append]
      simp only [goStr, reduceIte]
  | cons c cs ih =>
    intro fuel rest hfuel
    cases fuel with
    | zero => simp at hfuel
    | succ f =>
      have hih := ih f rest (by simp only [List.length_cons] at hfuel; omega)
      have hesc : escBody (c :: cs) ++ '"' :: rest
          = escapeChar c ++ (escBody cs ++ '"' :: rest) := by
        simp [escBody]
      rw [hesc]
      by_cases h1 : c = '"'
      · subst h1
        rw [show escapeChar '"' = ['\\', '"'] from rfl, List.cons_append, List.cons_append,
          List.nil_append, goStr_backslash_step f '"' '"' _ (by decide) (by decide), hih]
        rfl
      by_cases h2 : c = '\\'
      · subst h2
        rw [show escapeChar '\\' = ['\\', '\\'] from rfl, List.cons_append, List.cons_append,
          List.nil_append, goStr_backslash_step f '\\' '\\' _ (by decide) (by decide), hih]
        rfl
      by_cases h3 : c = '\n'
      · subst h3
        rw [show escapeChar '\n' = ['\\', 'n'] from rfl, List.cons_append, List.cons_append,
          List.nil_append, goStr_backslash_step f 'n' '\n' _ (by decide) (by decide), hih]
        rfl
      by_cases h4 : c = '\r'
      · subst h4
        rw [show escapeChar '\r' = ['\\', 'r'] from rfl, List.cons_append, List.cons_append,
          List.nil_append, goStr_backslash_step f 'r' '\r' _ (by decide) (by decide), hih]
        rfl
      by_cases h5 : c = '\t'
      · subst h5
        rw [show escapeChar '\t' = ['\\', 't'] from rfl, List.cons_append, List.cons_append,
          List.nil_append, goStr_backslash_step f 't' '\t' _ (by decide) (by decide), hih]
        rfl
      by_cases h6 : c = '\x08'
      · subst h6
        rw [show escapeChar '\x08' = ['\\', 'b'] from rfl, List.cons_append, List.cons_append,
          List.nil_append, goStr_backslash_step f 'b' '\x08' _ (by decide) (by decide), hih]
        rfl
      by_cases h7 : c = '\x0c'
      · subst h7
        rw [show escapeChar '\x0c' = ['\\', 'f'] from rfl, List.cons_append, List.cons_append,
          List.nil_append, goStr_backslash_step f 'f' '\x0c' _ (by decide) (by decide), hih]
        rfl
      by_cases h8 : c.toNat < 32
      · have hesc2 : escapeChar c = '\\' :: 'u' :: hex4 c.toNat := by
          rw [escapeChar, if_neg h1, if_neg h2, if_neg h3, if_neg h4, if_neg h5, if_neg h6,
            if_neg h7, if_pos h8]
        rw [hesc2, List.cons_append, List.cons_append,
          goStr_hex_step f c.toNat (by omega) (by omega) _, hih]
        simp [Char.ofNat_toNat]
      by_cases h9 : c.toNat < 127
      · have hesc2 : escapeChar c = [c] := by
          rw [escapeChar, if_neg h1, if_neg h2, if_neg h3, if_neg h4, if_neg h5, if_neg h6,
            if_neg h7, if_neg h8, if_pos h9]
        rw [hesc2, List.cons_append, List.nil_append, goStr_plain_step f c _ h1 h2, hih]
        rfl
      by_cases h10 : c.toNat < 65536
      · have hnotsur : ¬(55296 ≤ c.toNat ∧ c.toNat < 57344) := by
          rcases char_range c with h | ⟨h, _⟩ <;> omega
        have hesc2 : escapeChar c = '\\' :: 'u' :: hex4 c.toNat := by
          rw [escapeChar, if_neg h1, if_neg h2, if_neg h3, if_neg h4, if_neg h5, if_neg h6,
            if_neg h7, if_neg h8, if_neg (by omega : ¬c.toNat < 127), if_pos h10]
        rw [hesc2, List.cons_append, List.cons_append,
          goStr_hex_step f c.toNat h10 hnotsur _, hih]
        simp [Char.ofNat_toNat]
      · have hbig : 1114112 > c.toNat := (char_range c).elim (by omega) (fun h => h.2)
        have hv : c.toNat - 65536 < 1048576 := by omega
        have hesc2 : escapeChar c = '\\' :: 'u' :: (hex4 (55296 + (c.toNat - 65536) / 1024) ++
            '\\' :: 'u' :: hex4 (56320 + (c.toNat - 65536) % 1024)) := by
          rw [escapeChar, if_neg h1, if_neg h2, if_neg h3, if_neg h4, if_neg h5, if_neg h6,
            if_neg h7, if_neg h8, if_neg (by omega : ¬c.toNat < 127),
            if_neg (by omega : ¬c.toNat < 65536)]
          rfl
        rw [hesc2, List.cons_append, List.cons_append, List.append_assoc, List.cons_append,
          List.cons_append, goStr_surrogate_step f (c.toNat - 65536) hv _, hih]
        have : c.toNat - 65536 + 65536 = c.toNat := by omega
        rw [this]
        simp [Char.ofNat_toNat]

theorem jparseStr_escBody (chars rest : List Char) :
    jparseStr (escBody chars ++ '"' :: rest) = some (chars, rest) := by
  rw [jparseStr]
  apply goStr_escBody
  have := escBody_len_ge chars
  rw [List.length_append, List.length_cons]
  omega
theorem renderNum_head (q : ℚ) :
    ∃ c t, renderNum q = c :: t ∧ (c = '-' ∨ c.isDigit = true) := by
  by_cases hneg : q < 0
  · rw [renderNum, if_pos hneg]
    exact ⟨'-', _, rfl, Or.inl rfl⟩
  · obtain ⟨c0, t0, hct⟩ := List.exists_cons_of_ne_nil (padDigits_ne q)
    have hc0 : c0.isDigit = true := padDigits_digits q c0 (by rw [hct]; simp)
    by_cases hk : decExp q = 0
    · rw [renderNum, if_neg hneg, if_pos hk, hct]
      exact ⟨c0, t0, rfl, Or.inr hc0⟩
    · have hlen := padDigits_len q
      obtain ⟨m, hm⟩ : ∃ m, (padDigits q).length - decExp q = m + 1 := by
        refine ⟨(padDigits q).length - decExp q - 1, ?_⟩
        omega
      rw [renderNum, if_neg hneg, if_neg hk, hm, hct, List.take_succ_cons, List.nil_append,
        List.cons_append]
      exact ⟨c0, _, rfl, Or.inr hc0⟩

theorem dumpVal_head (ind : ℕ) (v : Py) :
    ∃ c t, dumpVal ind v = c :: t ∧ jsonWs c = false ∧ c ≠ ']' ∧ c ≠ '\x7d' := by
  cases v with
  | none => exact ⟨'n', _, rfl, by decide, by decide, by decide⟩
  | bool b =>
    cases b
    · exact ⟨'f', _, rfl, by decide, by decide, by decide⟩
    · exact ⟨'t', _, rfl, by decide, by decide, by decide⟩
  | num q =>
    obtain ⟨c, t, hct, hc⟩ := renderNum_head q
    refine ⟨c, t, by rw [show dumpVal ind (.num q) = renderNum q from rfl, hct], ?_, ?_, ?_⟩
    · rcases hc with rfl | hd
      · decide
      · exact (isDigit_ne hd).2.2.2.2.2.2.2.2.2.2
    · rcases hc with rfl | hd
      · decide
      · exact (isDigit_ne hd).2.2.2.2.2.2.2.2.1
    · rcases hc with rfl | hd
      · decide
      · exact (isDigit_ne hd).2.2.2.2.2.2.2.2.2.1
  | str s => exact ⟨'"', _, rfl, by decide, by decide, by decide⟩
  | list xs =>
    cases xs with
    | nil => exact ⟨'[', _, rfl, by decide, by decide, by decide⟩
    | cons x xs => exact ⟨'[', _, rfl, by decide, by decide, by decide⟩
  | dict kvs =>
    cases kvs with
    | nil => exact ⟨'\x7b', _, rfl, by decide, by decide, by decide⟩
    | cons kv kvs => exact ⟨'\x7b', _, rfl, by decide, by decide, by decide⟩

theorem dumpItems_head (ind : ℕ) (x : Py) (xs : List Py) :
    ∃ c t, dumpItems ind (x :: xs) = c :: t ∧ jsonWs c = false ∧ c ≠ ']' ∧ c ≠ '\x7d' := by
  obtain ⟨c, t, hct, h1, h2, h3⟩ := dumpVal_head ind x
  cases xs with
  | nil => exact ⟨c, t, by rw [show dumpItems ind [x] = dumpVal ind x from rfl, hct], h1, h2, h3⟩
  | cons y ys =>
    rw [show dumpItems ind (x :: y :: ys)
        = dumpVal ind x ++ ',' :: '\n' :: pad ind ++ dumpItems ind (y :: ys) from rfl, hct,
      List.cons_append]
    exact ⟨c, _, rfl, h1, h2, h3⟩

theorem dumpPairs_head (ind : ℕ) (kv : String × Py) (kvs : List (String × Py)) :
    ∃ t, dumpPairs ind (kv :: kvs) = '"' :: t := by
  obtain ⟨k, v⟩ := kv
  cases kvs with
  | nil =>
    rw [show dumpPairs ind [(k, v)] = renderStr k ++ ':' :: ' ' :: dumpVal ind v
      from rfl, renderStr, List.cons_append]
    exact ⟨_, rfl⟩
  | cons kv2 kvs =>
    rw [show dumpPairs ind ((k, v) :: kv2 :: kvs) = renderStr k ++ ':' :: ' ' ::
      dumpVal ind v ++ ',' :: '\n' :: pad ind ++ dumpPairs ind (kv2 :: kvs) from rfl,
      renderStr, List.cons_append, List.cons_append]
    exact ⟨_, rfl⟩

theorem pySize_pos (v : Py) : 1 ≤ pySize v := by
  cases v <;> simp [pySize]

theorem size_le_dump : ∀ n : ℕ,
    (∀ v ind, pySize v ≤ n → pySize v ≤ (dumpVal ind v).length) ∧
    (∀ xs ind, pySizeList xs ≤ n → pySizeList xs ≤ (dumpItems ind xs).length + 1) ∧
    (∀ kvs ind, pySizePairs kvs ≤ n → pySizePairs kvs ≤ (dumpPairs ind kvs).length + 1) := by
  intro n
  induction n with
  | zero =>
    refine ⟨fun v ind h => absurd (pySize_pos v) (by omega), fun xs ind h => ?_, fun kvs ind h => ?_⟩
    · cases xs with
      | nil => simp [pySizeList]
      | cons x xs =>
        exfalso
        have h1 := pySize_pos x
        have h2 : pySizeList (x :: xs) = 1 + pySize x + pySizeList xs := rfl
        omega
    · cases kvs with
      | nil => simp [pySizePairs]
      | cons kv kvs =>
        exfalso
        obtain ⟨k, v⟩ := kv
        have h1 := pySize_pos v
        have h2 : pySizePairs ((k, v) :: kvs) = 1 + pySize v + pySizePairs kvs := rfl
        omega
  | succ n ih =>
    obtain ⟨ihA, ihB, ihC⟩ := ih
    refine ⟨fun v ind h => ?_, fun xs ind h => ?_, fun kvs ind h => ?_⟩
    · cases v with
      | none => simp [pySize, dumpVal]
      | bool b => cases b <;> simp [pySize, dumpVal]
      | num q =>
        obtain ⟨c, t, hct, _⟩ := renderNum_head q
        rw [show dumpVal ind (.num q) = renderNum q from rfl, hct]
        simp [pySize]
      | str s =>
        rw [show dumpVal ind (.str s) = renderStr s from rfl, renderStr]
        simp [pySize]
      | list xs =>
        cases xs with
        | nil => simp [pySize, pySizeList, dumpVal]
        | cons x xs =>
          have hsz : pySizeList (x :: xs) ≤ n := by
            rw [show pySize (.list (x :: xs)) = 1 + pySizeList (x :: xs) from rfl] at h
            omega
          have hb := ihB (x :: xs) (ind + 1) hsz
          rw [show pySize (.list (x :: xs)) = 1 + pySizeList (x :: xs) from rfl,
            show dumpVal ind (.list (x :: xs)) = '[' :: '\n' :: pad (ind + 1) ++
              dumpItems (ind + 1) (x :: xs) ++ '\n' :: pad ind ++ [']'] from rfl]
          simp only [List.length_append, List.length_cons, List.cons_append]
          omega
      | dict kvs =>
        cases kvs with
        | nil => simp [pySize, pySizePairs, dumpVal]
        | cons kv kvs =>
          have hsz : pySizePairs (kv :: kvs) ≤ n := by
            rw [show pySize (.dict (kv :: kvs)) = 1 + pySizePairs (kv :: kvs) from rfl] at h
            omega
          have hc := ihC (kv :: kvs) (ind + 1) hsz
          rw [show pySize (.dict (kv :: kvs)) = 1 + pySizePairs (kv :: kvs) from rfl,
            show dumpVal ind (.dict (kv :: kvs)) = '\x7b' :: '\n' :: pad (ind + 1) ++
              dumpPairs (ind + 1) (kv :: kvs) ++ '\n' :: pad ind ++ ['\x7d'] from rfl]
          simp only [List.length_append, List.length_cons, List.cons_append]
          omega
    · cases xs with
      | nil => simp [pySizeList]
      | cons x xs =>
        rw [show pySizeList (x :: xs) = 1 + pySize x + pySizeList xs from rfl] at h ⊢
        have hx : pySize x ≤ (dumpVal ind x).length := ihA x ind (by omega)
        cases xs with
        | nil =>
          rw [show dumpItems ind [x] = dumpVal ind x from rfl]
          simp [pySizeList]
          omega
        | cons y ys =>
          have hys : pySizeList (y :: ys) ≤ (dumpItems ind (y :: ys)).length + 1 :=
            ihB (y :: ys) ind (by omega)
          rw [show dumpItems ind (x :: y :: ys)
            = dumpVal ind x ++ ',' :: '\n' :: pad ind ++ dumpItems ind (y :: ys) from rfl]
          simp only [List.length_append, List.length_cons]
          omega
    · cases kvs with
      | nil => simp [pySizePairs]
      | cons kv kvs =>
        obtain ⟨k, v⟩ := kv
        rw [show pySizePairs ((k, v) :: kvs) = 1 + pySize v + pySizePairs kvs from rfl] at h ⊢
        have hv : pySize v ≤ (dumpVal ind v).length := ihA v ind (by omega)
        cases kvs with
        | nil =>
          rw [show dumpPairs ind [(k, v)] = renderStr k ++ ':' :: ' ' :: dumpVal ind v from rfl,
            renderStr]
          simp [pySizePairs]
          omega
        | cons kv2 kvs2 =>
          have hks : pySizePairs (kv2 :: kvs2) ≤ (dumpPairs ind (kv2 :: kvs2)).length + 1 :=
            ihC (kv2 :: kvs2) ind (by omega)
          rw [show dumpPairs ind ((k, v) :: kv2 :: kvs2) = renderStr k ++ ':' :: ' ' ::
            dumpVal ind v ++ ',' :: '\n' :: pad ind ++ dumpPairs ind (kv2 :: kvs2) from rfl,
            renderStr]
          simp only [List.length_append, List.length_cons]
          omega

theorem pySize_le_dumpVal (v : Py) (ind : ℕ) : pySize v ≤ (dumpVal ind v).length :=
  (size_le_dump (pySize v)).1 v ind le_rfl
theorem skipWs_space (l : List Char) : skipWs (' ' :: l) = skipWs l := rfl

theorem jparse_dump : ∀ fuel : ℕ,
    (∀ (v : Py) (ind : ℕ) (cs rest : List Char), pyWf v = true → pySize v ≤ fuel →
       goodAfter rest → skipWs cs = dumpVal ind v ++ rest →
       jparseVal fuel cs = some (v, rest)) ∧
    (∀ (x : Py) (xs : List Py) (ind1 : ℕ) (cs cl rest : List Char),
       pyWfList (x :: xs) = true → pySizeList (x :: xs) ≤ fuel → goodAfter cl →
       skipWs cl = ']' :: rest → skipWs cs = dumpItems ind1 (x :: xs) ++ cl →
       jparseItems fuel cs = some (x :: xs, rest)) ∧
    (∀ (kv : String × Py) (kvs : List (String × Py)) (ind1 : ℕ) (cs cl rest : List Char),
       pyWfPairs (kv :: kvs) = true → pySizePairs (kv :: kvs) ≤ fuel → goodAfter cl →
       skipWs cl = '\x7d' :: rest → skipWs cs = dumpPairs ind1 (kv :: kvs) ++ cl →
       jparsePairs fuel cs = some (kv :: kvs, rest)) := by
  intro fuel
  induction fuel with
  | zero =>
    refine ⟨fun v ind cs rest _ hsz _ _ => absurd (pySize_pos v) (by omega),
            fun x xs ind1 cs cl rest _ hsz _ _ _ => ?_,
            fun kv kvs ind1 cs cl rest _ hsz _ _ _ => ?_⟩
    · exfalso
      have h1 := pySize_pos x
      have h2 : pySizeList (x :: xs) = 1 + pySize x + pySizeList xs := rfl
      omega
    · exfalso
      obtain ⟨k, v⟩ := kv
      have h1 := pySize_pos v
      have h2 : pySizePairs ((k, v) :: kvs) = 1 + pySize v + pySizePairs kvs := rfl
      omega
  | succ f ih =>
    obtain ⟨ihV, ihI, ihP⟩ := ih
    refine ⟨fun v ind cs rest hwf hsz hga hskip => ?_,
            fun x xs ind1 cs cl rest hwf hsz hga hcl hskip => ?_,
            fun kv kvs ind1 cs cl rest hwf hsz hga hcl hskip => ?_⟩
    · -- jparseVal
      cases v with
      | none =>
        have hskip' : skipWs cs = 'n' :: 'u' :: 'l' :: 'l' :: rest := hskip
        simp only [jparseVal, hskip', reduceIte]
      | bool b =>
        cases b with
        | true =>
          have hskip' : skipWs cs = 't' :: 'r' :: 'u' :: 'e' :: rest := hskip
          simp only [jparseVal, hskip', reduceIte]
          rfl
        | false =>
          have hskip' : skipWs cs = 'f' :: 'a' :: 'l' :: 's' :: 'e' :: rest := hskip
          simp only [jparseVal, hskip', reduceIte]
          rfl
      | num q =>
        have hwfn : pyWfNum q = true := by simpa [pyWf] using hwf
        obtain ⟨c0, t0, hct, hc0⟩ := renderNum_head q
        have hskip' : skipWs cs = c0 :: (t0 ++ rest) := by
          rw [hskip, show dumpVal ind (.num q) = renderNum q from rfl, hct, List.cons_append]
        have hne : c0 ≠ 'n' ∧ c0 ≠ 't' ∧ c0 ≠ 'f' ∧ c0 ≠ '"' ∧ c0 ≠ '[' ∧ c0 ≠ '\x7b' := by
          rcases hc0 with rfl | hd
          · exact ⟨by decide, by decide, by decide, by decide, by decide, by decide⟩
          · have h := isDigit_ne hd
            exact ⟨h.2.2.1, h.2.2.2.1, h.2.2.2.2.1, h.2.2.2.2.2.1, h.2.2.2.2.2.2.1,
              h.2.2.2.2.2.2.2.1⟩
        simp only [jparseVal, hskip']
        rw [if_neg hne.1, if_neg hne.2.1, if_neg hne.2.2.1, if_neg hne.2.2.2.1,
          if_neg hne.2.2.2.2.1, if_neg hne.2.2.2.2.2,
          show c0 :: (t0 ++ rest) = renderNum q ++ rest by rw [hct, List.cons_append],
          jparseNum_renderNum hwfn hga]
        rfl
      | str s =>
        have hskip' : skipWs cs = '"' :: (escBody s.data ++ '"' :: rest) := by
          rw [hskip, show dumpVal ind (.str s) = renderStr s from rfl, renderStr]
          simp [List.append_assoc]
        simp only [jparseVal, hskip', reduceIte]
        rw [jparseStr_escBody]
        rfl
      | list xs =>
        cases xs with
        | nil =>
          have hskip' : skipWs cs = '[' :: ']' :: rest := hskip
          have hsw : skipWs (']' :: rest) = ']' :: rest := skipWs_not_ws _ (by decide)
          simp only [jparseVal, hskip', reduceIte, hsw, List.head?]
          rfl
        | cons x xs =>
          have hwfl : pyWfList (x :: xs) = true := by simpa [pyWf] using hwf
          have hszl : pySizeList (x :: xs) ≤ f := by
            have hx : pySize (.list (x :: xs)) = 1 + pySizeList (x :: xs) := rfl
            omega
          obtain ⟨c1, t1, hdi, hws1, hne1, _⟩ := dumpItems_head (ind + 1) x xs
          have hskip' : skipWs cs = '[' :: ('\n' :: (pad (ind + 1) ++
              (dumpItems (ind + 1) (x :: xs) ++ ('\n' :: (pad ind ++ (']' :: rest)))))) := by
            rw [hskip, show dumpVal ind (.list (x :: xs)) = '[' :: '\n' :: pad (ind + 1) ++
              dumpItems (ind + 1) (x :: xs) ++ '\n' :: pad ind ++ [']'] from rfl]
            simp [List.append_assoc]
          have hr : skipWs ('\n' :: (pad (ind + 1) ++ (dumpItems (ind + 1) (x :: xs) ++
              ('\n' :: (pad ind ++ (']' :: rest)))))) =
              dumpItems (ind + 1) (x :: xs) ++ ('\n' :: (pad ind ++ (']' :: rest))) := by
            rw [skipWs_nl, skipWs_pad, hdi, List.cons_append, skipWs_not_ws _ hws1]
          have hclw : skipWs ('\n' :: (pad ind ++ (']' :: rest))) = ']' :: rest := by
            rw [skipWs_nl, skipWs_pad, skipWs_not_ws _ (by decide)]
          have hcond : ¬((dumpItems (ind + 1) (x :: xs) ++
              ('\n' :: (pad ind ++ (']' :: rest)))).head? = some ']') := by
            rw [hdi, List.cons_append]
            simp [hne1]
          have hI := ihI x xs (ind + 1) _ ('\n' :: (pad ind ++ (']' :: rest))) rest hwfl hszl
            (Or.inr rfl) hclw hr
          simp only [jparseVal, hskip', reduceIte]
          rw [hr, if_neg hcond, hI]
          rfl
      | dict kvs =>
        cases kvs with
        | nil =>
          have hskip' : skipWs cs = '\x7b' :: '\x7d' :: rest := hskip
          have hsw : skipWs ('\x7d' :: rest) = '\x7d' :: rest := skipWs_not_ws _ (by decide)
          simp only [jparseVal, hskip', reduceIte, hsw, List.head?]
          rfl
        | cons kv kvs =>
          have hwfp : pyWfPairs (kv :: kvs) = true := by simpa [pyWf] using hwf
          have hszp : pySizePairs (kv :: kvs) ≤ f := by
            have hx : pySize (.dict (kv :: kvs)) = 1 + pySizePairs (kv :: kvs) := rfl
            omega
          obtain ⟨t1, hdp⟩ := dumpPairs_head (ind + 1) kv kvs
          have hskip' : skipWs cs = '\x7b' :: ('\n' :: (pad (ind + 1) ++
              (dumpPairs (ind + 1) (kv :: kvs) ++ ('\n' :: (pad ind ++ ('\x7d' :: rest)))))) := by
            rw [hskip, show dumpVal ind (.dict (kv :: kvs)) = '\x7b' :: '\n' :: pad (ind + 1) ++
              dumpPairs (ind + 1) (kv :: kvs) ++ '\n' :: pad ind ++ ['\x7d'] from rfl]
            simp [List.append_assoc]
          have hr : skipWs ('\n' :: (pad (ind + 1) ++ (dumpPairs (ind + 1) (kv :: kvs) ++
              ('\n' :: (pad ind ++ ('\x7d' :: rest)))))) =
              dumpPairs (ind + 1) (kv :: kvs) ++ ('\n' :: (pad ind ++ ('\x7d' :: rest))) := by
            rw [skipWs_nl, skipWs_pad, hdp, List.cons_append, skipWs_not_ws _ (by decide)]
          have hclw : skipWs ('\n' :: (pad ind ++ ('\x7d' :: rest))) = '\x7d' :: rest := by
            rw [skipWs_nl, skipWs_pad, skipWs_not_ws _ (by decide)]
          have hcond : ¬((dumpPairs (ind + 1) (kv :: kvs) ++
              ('\n' :: (pad ind ++ ('\x7d' :: rest)))).head? = some '\x7d') := by
            rw [hdp, List.cons_append]
            simp
          have hP := ihP kv kvs (ind + 1) _ ('\n' :: (pad ind ++ ('\x7d' :: rest))) rest hwfp hszp
            (Or.inr rfl) hclw hr
          simp only [jparseVal, hskip', reduceIte]
          rw [hr, if_neg hcond, hP]
          rfl
    · -- jparseItems
      cases xs with
      | nil =>
        have hwx : pyWf x = true := by
          have h : pyWfList [x] = (pyWf x && pyWfList []) := rfl
          simp only [h, Bool.and_eq_true] at hwf
          exact hwf.1
        have hszx : pySize x ≤ f := by
          have h : pySizeList [x] = 1 + pySize x + pySizeList [] := rfl
          have h0 : pySizeList ([] : List Py) = 0 := rfl
          omega
        have hV := ihV x ind1 cs cl hwx hszx hga hskip
        simp only [jparseItems, hV, hcl, reduceIte]
        rfl
      | cons y ys =>
        have hwf' : pyWf x = true ∧ pyWfList (y :: ys) = true := by
          have h : pyWfList (x :: y :: ys) = (pyWf x && pyWfList (y :: ys)) := rfl
          simp only [h, Bool.and_eq_true] at hwf
          exact hwf
        have hwx : pyWf x = true := hwf'.1
        have hwys : pyWfList (y :: ys) = true := hwf'.2
        have hszx : pySize x ≤ f := by
          have h : pySizeList (x :: y :: ys) = 1 + pySize x + pySizeList (y :: ys) := rfl
          have h1 := pySize_pos y
          have h2 : pySizeList (y :: ys) = 1 + pySize y + pySizeList ys := rfl
          omega
        have hszys : pySizeList (y :: ys) ≤ f := by
          have h : pySizeList (x :: y :: ys) = 1 + pySize x + pySizeList (y :: ys) := rfl
          have h1 := pySize_pos x
          omega
        have hskip1 : skipWs cs = dumpVal ind1 x ++
            (',' :: ('\n' :: (pad ind1 ++ (dumpItems ind1 (y :: ys) ++ cl)))) := by
          rw [hskip, show dumpItems ind1 (x :: y :: ys) = dumpVal ind1 x ++ ',' :: '\n' ::
            pad ind1 ++ dumpItems ind1 (y :: ys) from rfl]
          simp [List.append_assoc]
        have hV := ihV x ind1 cs (',' :: ('\n' :: (pad ind1 ++ (dumpItems ind1 (y :: ys) ++ cl))))
            hwx hszx (Or.inl rfl) hskip1
        have hsw : skipWs (',' :: ('\n' :: (pad ind1 ++ (dumpItems ind1 (y :: ys) ++ cl)))) =
            ',' :: ('\n' :: (pad ind1 ++ (dumpItems ind1 (y :: ys) ++ cl))) :=
          skipWs_not_ws _ (by decide)
        have hr2 : skipWs ('\n' :: (pad ind1 ++ (dumpItems ind1 (y :: ys) ++ cl))) =
            dumpItems ind1 (y :: ys) ++ cl := by
          obtain ⟨c1, t1, hdi, hws1, _, _⟩ := dumpItems_head ind1 y ys
          rw [skipWs_nl, skipWs_pad, hdi, List.cons_append, skipWs_not_ws _ hws1]
        have hI := ihI y ys ind1 _ cl rest hwys hszys hga hcl hr2
        simp only [jparseItems, hV, hsw, reduceIte, hI]
    · -- jparsePairs
      obtain ⟨k, v⟩ := kv
      cases kvs with
      | nil =>
        have hwv : pyWf v = true := by
          have h : pyWfPairs [(k, v)] = (pyWf v && pyWfPairs []) := rfl
          simp only [h, Bool.and_eq_true] at hwf
          exact hwf.1
        have hszv : pySize v ≤ f := by
          have h : pySizePairs [(k, v)] = 1 + pySize v + pySizePairs [] := rfl
          have h0 : pySizePairs ([] : List (String × Py)) = 0 := rfl
          omega
        have hskip' : skipWs cs = '"' :: (escBody k.data ++ '"' ::
            (':' :: (' ' :: (dumpVal ind1 v ++ cl)))) := by
          rw [hskip, show dumpPairs ind1 [(k, v)] = renderStr k ++ ':' :: ' ' :: dumpVal ind1 v
            from rfl, renderStr]
          simp [List.append_assoc]
        have hr2 : skipWs (' ' :: (dumpVal ind1 v ++ cl)) = dumpVal ind1 v ++ cl := by
          obtain ⟨c1, t1, hdv, hws1, _, _⟩ := dumpVal_head ind1 v
          rw [skipWs_space, hdv, List.cons_append, skipWs_not_ws _ hws1]
        have hV := ihV v ind1 _ cl hwv hszv hga hr2
        have hsw : skipWs (':' :: (' ' :: (dumpVal ind1 v ++ cl))) =
            ':' :: (' ' :: (dumpVal ind1 v ++ cl)) := skipWs_not_ws _ (by decide)
        simp only [jparsePairs, hskip', reduceIte, jparseStr_escBody, hsw, hV, hcl]
        rfl
      | cons kv2 kvs2 =>
        have hwf' : pyWf v = true ∧ pyWfPairs (kv2 :: kvs2) = true := by
          have h : pyWfPairs ((k, v) :: kv2 :: kvs2) =
            (pyWf v && pyWfPairs (kv2 :: kvs2)) := rfl
          simp only [h, Bool.and_eq_true] at hwf
          exact hwf
        have hwv : pyWf v = true := hwf'.1
        have hwks : pyWfPairs (kv2 :: kvs2) = true := hwf'.2
        have hszv : pySize v ≤ f := by
          have h : pySizePairs ((k, v) :: kv2 :: kvs2) =
            1 + pySize v + pySizePairs (kv2 :: kvs2) := rfl
          obtain ⟨k2, v2⟩ := kv2
          have h1 := pySize_pos v2
          have h2 : pySizePairs ((k2, v2) :: kvs2) = 1 + pySize v2 + pySizePairs kvs2 := rfl
          omega
        have hszks : pySizePairs (kv2 :: kvs2) ≤ f := by
          have h : pySizePairs ((k, v) :: kv2 :: kvs2) =
            1 + pySize v + pySizePairs (kv2 :: kvs2) := rfl
          have h1 := pySize_pos v
          omega
        have hskip' : skipWs cs = '"' :: (escBody k.data ++ '"' ::
            (':' :: (' ' :: (dumpVal ind1 v ++
              (',' :: ('\n' :: (pad ind1 ++ (dumpPairs ind1 (kv2 :: kvs2) ++ cl)))))))) := by
          rw [hskip, show dumpPairs ind1 ((k, v) :: kv2 :: kvs2) = renderStr k ++ ':' :: ' ' ::
            dumpVal ind1 v ++ ',' :: '\n' :: pad ind1 ++ dumpPairs ind1 (kv2 :: kvs2)
            from rfl, renderStr]
          simp [List.append_assoc]
        have hr2 : skipWs (' ' :: (dumpVal ind1 v ++
            (',' :: ('\n' :: (pad ind1 ++ (dumpPairs ind1 (kv2 :: kvs2) ++ cl)))))) =
            dumpVal ind1 v ++
              (',' :: ('\n' :: (pad ind1 ++ (dumpPairs ind1 (kv2 :: kvs2) ++ cl)))) := by
          obtain ⟨c1, t1, hdv, hws1, _, _⟩ := dumpVal_head ind1 v
          rw [skipWs_space, hdv, List.cons_append, skipWs_not_ws _ hws1]
        have hV := ihV v ind1 (' ' :: (dumpVal ind1 v ++ (',' :: ('\n' :: (pad ind1 ++
            (dumpPairs ind1 (kv2 :: kvs2) ++ cl))))))
            (',' :: ('\n' :: (pad ind1 ++ (dumpPairs ind1 (kv2 :: kvs2) ++ cl))))
            hwv hszv (Or.inl rfl) hr2
        have hsw : skipWs (':' :: (' ' :: (dumpVal ind1 v ++
            (',' :: ('\n' :: (pad ind1 ++ (dumpPairs ind1 (kv2 :: kvs2) ++ cl))))))) =
            ':' :: (' ' :: (dumpVal ind1 v ++
              (',' :: ('\n' :: (pad ind1 ++ (dumpPairs ind1 (kv2 :: kvs2) ++ cl)))))) :=
          skipWs_not_ws _ (by decide)
        have hsw2 : skipWs (',' :: ('\n' :: (pad ind1 ++ (dumpPairs ind1 (kv2 :: kvs2) ++
            cl)))) = ',' :: ('\n' :: (pad ind1 ++ (dumpPairs ind1 (kv2 :: kvs2) ++ cl))) :=
          skipWs_not_ws _ (by decide)
        have hr4 : skipWs ('\n' :: (pad ind1 ++ (dumpPairs ind1 (kv2 :: kvs2) ++ cl))) =
            dumpPairs ind1 (kv2 :: kvs2) ++ cl := by
          obtain ⟨t2, hdp⟩ := dumpPairs_head ind1 kv2 kvs2
          rw [skipWs_nl, skipWs_pad, hdp, List.cons_append, skipWs_not_ws _ (by decide)]
        have hP := ihP kv2 kvs2 ind1 _ cl rest hwks hszks hga hcl hr4
        simp only [jparsePairs, hskip', reduceIte, jparseStr_escBody, hsw, hV, hsw2, hP]
/-- Round trip: `json.loads(json.dumps(v, indent=2))` recovers `v` for every
document whose numbers are finite decimals (every document the service
builds, since Python floats are finite binary — hence decimal — fractions). -/
theorem jsonLoads_pyDumps (v : Py) (hwf : pyWf v = true) :
    jsonLoads (pyDumps v) = some v := by
  obtain ⟨c, t, hdv, hws, _, _⟩ := dumpVal_head 0 v
  have hskip : skipWs (dumpVal 0 v) = dumpVal 0 v ++ [] := by
    rw [List.append_nil, hdv, skipWs_not_ws _ hws]
  have hmain := (jparse_dump ((dumpVal 0 v).length + 1)).1 v 0 (dumpVal 0 v) [] hwf
    (Nat.le_succ_of_le (pySize_le_dumpVal v 0)) trivial hskip
  have hdata : (pyDumps v).data = dumpVal 0 v := rfl
  simp only [jsonLoads, hdata, hmain]
  rfl

/-- C8: serializing the report record either route constructs
(`json.dumps(report, indent=2)` in `upload_to_ipfs`, app.py lines 294-295)
and parsing it back yields the same record, and in particular the same
severity, confidence and damage-parts values.  The hypotheses say each
number in the record is a finite decimal, which the code guarantees by
rounding severity to 2 and confidence to 3 decimal places (lines 264-270)
— and which holds of every Python float. -/
theorem c8_report_round_trip (a : Analysis) (ts : String) (ecid : Option String)
    (hs : pyWfNum a.severity = true) (hc : pyWfNum a.confidence = true)
    (hp : pyWfList a.damage_parts = true) (hv : pyWf a.validation_error = true) :
    jsonLoads (pyDumps (.dict (reportDict a ts ecid))) =
      some (.dict (reportDict a ts ecid)) ∧
    (reportDict a ts ecid).lookup "severity" = some (.num a.severity) ∧
    (reportDict a ts ecid).lookup "damage_parts" = some (.list a.damage_parts) ∧
    (reportDict a ts ecid).lookup "confidence" = some (.num a.confidence) := by
  have hwf : pyWf (.dict (reportDict a ts ecid)) = true := by
    cases ecid <;> simp [reportDict, pyWf, pyWfPairs, pyWfList, hs, hc, hp, hv]
  refine ⟨jsonLoads_pyDumps _ hwf, ?_, ?_, ?_⟩ <;> cases ecid <;> rfl

/-- C8 witness: the round trip at a concrete report — severity 45.67,
damage parts `["hood"]`, confidence 0.707, with an evidence CID. -/
theorem c8_witness :
    jsonLoads (pyDumps (.dict (reportDict
        ⟨mkRat 4567 100, [.str "hood"], mkRat 707 1000, true, Py.none⟩
        "2026-02-03T04:05:06" (some "QmX")))) =
      some (.dict (reportDict
        ⟨mkRat 4567 100, [.str "hood"], mkRat 707 1000, true, Py.none⟩
        "2026-02-03T04:05:06" (some "QmX"))) ∧
    (reportDict ⟨mkRat 4567 100, [.str "hood"], mkRat 707 1000, true, Py.none⟩
        "2026-02-03T04:05:06" (some "QmX")).lookup "severity" =
      some (.num (mkRat 4567 100)) ∧
    (reportDict ⟨mkRat 4567 100, [.str "hood"], mkRat 707 1000, true, Py.none⟩
        "2026-02-03T04:05:06" (some "QmX")).lookup "damage_parts" =
      some (.list [.str "hood"]) ∧
    (reportDict ⟨mkRat 4567 100, [.str "hood"], mkRat 707 1000, true, Py.none⟩
        "2026-02-03T04:05:06" (some "QmX")).lookup "confidence" =
      some (.num (mkRat 707 1000)) :=
  c8_report_round_trip
    ⟨mkRat 4567 100, [.str "hood"], mkRat 707 1000, true, Py.none⟩
    "2026-02-03T04:05:06" (some "QmX") (by rfl) (by rfl) (by rfl) (by rfl)
end VimsML
